import Mathlib

/-! # ImgHandel.cpp: compositing benchmark, shallow embedding

The C++ translation unit `src/cpp/ImgHandel.cpp` is embedded as pure Lean
functions.

* Bytes (`uint8_t`) are `Fin 256`; buffers are lists of bytes, and a pointer
  into a buffer is the buffer together with a byte offset.
* Every memory access is bounds-checked: an access outside the buffer is
  undefined behaviour in C++ and yields `Fault.outOfBounds` here.
* `size_t` arithmetic that can wrap is written with an explicit `% 2^64`,
  `uint32_t` arithmetic with `% 2^32`.
* `while` loops whose counter can wrap take a fuel argument; running out of
  fuel yields `Fault.outOfFuel`.
* The preprocessor conditionals (`__x86_64__`, `__aarch64__`, `__AVX2__`,
  `__SSE4_1__`) are the fields of `BuildTarget`.
-/

namespace ImgHandel

/-! ## Machine types -/

/-- A `uint8_t`. -/
abbrev Byte := Fin 256

/-- Number of values of a `size_t` (64-bit targets). -/
def SIZE_MOD : Nat := 2 ^ 64

/-- Number of values of a `uint32_t`. -/
def U32_MOD : Nat := 2 ^ 32

/-- Ways in which a run leaves defined behaviour (or the model runs dry). -/
inductive Fault where
  | outOfBounds
  | outOfFuel
  | divByZero
  | badCast
  deriving DecidableEq, Repr

deriving instance DecidableEq for Except

/-- The macros the preprocessor conditionals of the file test. -/
structure BuildTarget where
  x86_64 : Bool
  avx2 : Bool
  sse4_1 : Bool
  aarch64 : Bool
  deriving DecidableEq, Repr

/-- The enumeration `enum class SimdSupport`. -/
inductive SimdSupport where
  | None
  | AVX2
  | SSE4
  | NEON
  deriving DecidableEq, Repr

/-- The constant `SIMD_VECTOR_SIZE` (lines 28-34). -/
def SIMD_VECTOR_SIZE (t : BuildTarget) : Nat :=
  if t.x86_64 then 32 else if t.aarch64 then 16 else 1

/-- The constant `MIN_BYTES_FOR_SIMD` (line 36). -/
def MIN_BYTES_FOR_SIMD (t : BuildTarget) : Nat :=
  (SIMD_VECTOR_SIZE t * 2) % SIZE_MOD

/-- The function `get_simd_support` (lines 52-66). -/
def get_simd_support (t : BuildTarget) : SimdSupport :=
  if t.x86_64 then
    if t.avx2 then SimdSupport.AVX2
    else if t.sse4_1 then SimdSupport.SSE4
    else SimdSupport.None
  else if t.aarch64 then SimdSupport.NEON
  else SimdSupport.None

/-! ## Memory primitives -/

/-- The buffer `buf` with the bytes `data` written over positions
`off, off+1, ...`. -/
def blit (buf : List Byte) (off : Nat) (data : List Byte) : List Byte :=
  buf.take off ++ data ++ buf.drop (off + data.length)

/-- Read `n` bytes at `buf + off` (a vector load, or the read side of
`memcpy`). -/
def load (buf : List Byte) (off n : Nat) : Except Fault (List Byte) :=
  if off + n ≤ buf.length then .ok ((buf.drop off).take n)
  else .error Fault.outOfBounds

/-- Write the bytes `data` at `buf + off` (a vector store, or the write side
of `memcpy`). -/
def store (buf : List Byte) (off : Nat) (data : List Byte) :
    Except Fault (List Byte) :=
  if off + data.length ≤ buf.length then .ok (blit buf off data)
  else .error Fault.outOfBounds

/-- The call `std::memcpy(dst + dstOff, src + srcOff, n)`. -/
def memcpy (dst : List Byte) (dstOff : Nat) (src : List Byte) (srcOff n : Nat) :
    Except Fault (List Byte) := do
  let data ← load src srcOff n
  store dst dstOff data

/-! ## `copy_row_simd` (lines 149-182) -/

/-- The loop `while (i + chunk <= width) { load; store; i += chunk; }` of
`copy_row_simd`, with `i + chunk` computed in `size_t`. Returns the final `i`
and the destination buffer. -/
def copy_loop (chunk : Nat) (src : List Byte) (srcOff dstOff width : Nat) :
    Nat → Nat → List Byte → Except Fault (Nat × List Byte)
  | 0, _, _ => .error Fault.outOfFuel
  | fuel + 1, i, dst =>
    if (i + chunk) % SIZE_MOD ≤ width then do
      let data ← load src (srcOff + i) chunk
      let dst1 ← store dst (dstOff + i) data
      copy_loop chunk src srcOff dstOff width fuel ((i + chunk) % SIZE_MOD) dst1
    else .ok (i, dst)

/-- One vectorised case of the `switch`: the chunk loop, then
`std::memcpy(dst + i, src + i, width - i)`. The loop keeps `i <= width`, so
`width - i` does not wrap. -/
def copy_chunked (chunk : Nat) (src : List Byte) (srcOff : Nat) (dst : List Byte)
    (dstOff width fuel : Nat) : Except Fault (List Byte) := do
  let (i, dst1) ← copy_loop chunk src srcOff dstOff width fuel 0 dst
  memcpy dst1 (dstOff + i) src (srcOff + i) (width - i)

/-- The function `copy_row_simd(src, dst, width, simd_support)`. The `NEON`
case exists only under `__aarch64__`, the `AVX2` case only under
`__x86_64__`; every other tag reaches `default`. -/
def copy_row_simd (t : BuildTarget) (src : List Byte) (srcOff : Nat)
    (dst : List Byte) (dstOff width : Nat) (simd_support : SimdSupport)
    (fuel : Nat) : Except Fault (List Byte) :=
  match simd_support with
  | SimdSupport.NEON =>
    if t.aarch64 then copy_chunked 16 src srcOff dst dstOff width fuel
    else memcpy dst dstOff src srcOff width
  | SimdSupport.AVX2 =>
    if t.x86_64 then copy_chunked 32 src srcOff dst dstOff width fuel
    else memcpy dst dstOff src srcOff width
  | _ => memcpy dst dstOff src srcOff width

/-- Reference copy, one byte at a time: `for k < n: dst[dstOff+k] =
src[srcOff+k]`. -/
def scalar_copy (src : List Byte) (srcOff : Nat) (dst : List Byte)
    (dstOff n : Nat) : List Byte :=
  (List.range n).foldl
    (fun d k => d.set (dstOff + k) (src.getD (srcOff + k) 0)) dst

/-! ## Image geometry and the processor (lines 18-26, 184-198) -/

/-- The image dimension constants of lines 19-26, as parameters; each is a
`uint32_t`. -/
structure Geometry where
  ORIGINAL_WIDTH : Nat
  ORIGINAL_HEIGHT : Nat
  NEW_WIDTH : Nat
  NEW_HEIGHT : Nat
  OFFSET_X : Nat
  OFFSET_Y : Nat
  BYTES_PER_PIXEL : Nat
  deriving DecidableEq, Repr

/-- The values the program is compiled with. -/
def configured : Geometry :=
  { ORIGINAL_WIDTH := 19000, ORIGINAL_HEIGHT := 19000,
    NEW_WIDTH := 20000, NEW_HEIGHT := 20000,
    OFFSET_X := 500, OFFSET_Y := 500, BYTES_PER_PIXEL := 3 }

/-- Every constant fits its type `uint32_t`. -/
def Geometry.WellTyped (g : Geometry) : Prop :=
  g.ORIGINAL_WIDTH < U32_MOD ∧ g.ORIGINAL_HEIGHT < U32_MOD ∧
  g.NEW_WIDTH < U32_MOD ∧ g.NEW_HEIGHT < U32_MOD ∧
  g.OFFSET_X < U32_MOD ∧ g.OFFSET_Y < U32_MOD ∧ g.BYTES_PER_PIXEL < U32_MOD

/-- Line 206: `row_bytes = ORIGINAL_WIDTH * BYTES_PER_PIXEL`, a `uint32_t`
product. -/
def row_bytes (g : Geometry) : Nat :=
  (g.ORIGINAL_WIDTH * g.BYTES_PER_PIXEL) % U32_MOD

/-- Line 207: `offset_bytes = OFFSET_X * BYTES_PER_PIXEL`. -/
def offset_bytes (g : Geometry) : Nat :=
  (g.OFFSET_X * g.BYTES_PER_PIXEL) % U32_MOD

/-- Line 208: `new_row_bytes = NEW_WIDTH * BYTES_PER_PIXEL`. -/
def new_row_bytes (g : Geometry) : Nat :=
  (g.NEW_WIDTH * g.BYTES_PER_PIXEL) % U32_MOD

/-- Size of `original_img` (line 192), a `uint32_t` product. -/
def original_size (g : Geometry) : Nat :=
  (((g.ORIGINAL_WIDTH * g.ORIGINAL_HEIGHT) % U32_MOD) * g.BYTES_PER_PIXEL) % U32_MOD

/-- Size of `new_img` (line 193), a `uint32_t` product. -/
def new_size (g : Geometry) : Nat :=
  (((g.NEW_WIDTH * g.NEW_HEIGHT) % U32_MOD) * g.BYTES_PER_PIXEL) % U32_MOD

/-- The data members of `class ImageProcessor`. -/
structure ImageProcessor where
  original_img : List Byte
  new_img : List Byte
  simd_support : SimdSupport
  deriving DecidableEq, Repr

/-- The constructor `ImageProcessor::ImageProcessor()` (lines 191-198): both
vectors are value-initialised to zero, then the original is filled with
128. -/
def ImageProcessor.create (t : BuildTarget) (g : Geometry) : ImageProcessor :=
  { original_img := List.replicate (original_size g) 128,
    new_img := List.replicate (new_size g) 0,
    simd_support := get_simd_support t }

/-! ## The compositing pass of `process_image` (lines 206-240) -/

/-- Body of the `for` loop of `process_chunk` for one row `y`
(lines 216-226). `OFFSET_Y + ORIGINAL_HEIGHT` is a `uint32_t` sum;
`src_y * row_bytes` and `y * new_row_bytes` are `size_t` products of two
values below `2^32` and do not wrap. -/
def process_row (t : BuildTarget) (g : Geometry) (fuel : Nat)
    (p : ImageProcessor) (y : Nat) : Except Fault ImageProcessor :=
  if y ≥ g.OFFSET_Y ∧ y < (g.OFFSET_Y + g.ORIGINAL_HEIGHT) % U32_MOD then
    let src_y := y - g.OFFSET_Y
    if src_y < g.ORIGINAL_HEIGHT then do
      let d ← copy_row_simd t p.original_img (src_y * row_bytes g)
        p.new_img (y * new_row_bytes g + offset_bytes g) (row_bytes g)
        p.simd_support fuel
      pure { p with new_img := d }
    else pure p
  else pure p

/-- The loop `for (y = ...; y < end_y; ++y)` with `n` rows left to do. -/
def process_rows (t : BuildTarget) (g : Geometry) (fuel : Nat) :
    Nat → Nat → ImageProcessor → Except Fault ImageProcessor
  | 0, _, p => pure p
  | n + 1, y, p => do
    let p1 ← process_row t g fuel p y
    process_rows t g fuel n (y + 1) p1

/-- The lambda `process_chunk(start_y, end_y)` (lines 214-228). -/
def process_chunk (t : BuildTarget) (g : Geometry) (fuel : Nat)
    (p : ImageProcessor) (start_y end_y : Nat) : Except Fault ImageProcessor :=
  process_rows t g fuel (end_y - start_y) start_y p

/-- Line 230: `rows_per_thread = NEW_HEIGHT / num_threads`. -/
def rows_per_thread (g : Geometry) (num_threads : Nat) : Nat :=
  g.NEW_HEIGHT / num_threads

/-- Line 232: `start_y = i * rows_per_thread`; at most `NEW_HEIGHT`, so the
`size_t` product does not wrap. -/
def start_y (g : Geometry) (num_threads i : Nat) : Nat :=
  i * rows_per_thread g num_threads

/-- Lines 233-234: `end_y` of worker `i`. -/
def end_y (g : Geometry) (num_threads i : Nat) : Nat :=
  if i = num_threads - 1 then g.NEW_HEIGHT
  else (i + 1) * rows_per_thread g num_threads

/-- The workers of the list `order` run one after the other, each executing
`process_chunk(start_y, end_y)` for its index. -/
def run_workers (t : BuildTarget) (g : Geometry) (fuel num_threads : Nat) :
    List Nat → ImageProcessor → Except Fault ImageProcessor
  | [], p => pure p
  | i :: rest, p => do
    let p1 ← process_chunk t g fuel p (start_y g num_threads i)
      (end_y g num_threads i)
    run_workers t g fuel num_threads rest p1

/-- The compositing pass (lines 206-240): the division by `num_threads`, then
the workers `0, ..., num_threads - 1`, joined before the pass ends. The
threads are run in the order in which they are spawned. -/
def composite (t : BuildTarget) (g : Geometry) (fuel num_threads : Nat)
    (p : ImageProcessor) : Except Fault ImageProcessor :=
  if num_threads = 0 then .error Fault.divByZero
  else run_workers t g fuel num_threads (List.range num_threads) p

/-- Byte `c` of row `y` of a buffer whose rows are `stride` bytes long. -/
def byte_at (buf : List Byte) (stride y c : Nat) : Option Byte :=
  buf[y * stride + c]?


/-- Byte `k` of pixel `(x, y)` of a buffer `width` pixels wide with `bpp`
bytes per pixel. -/
def pixel_byte (buf : List Byte) (width bpp x y k : Nat) : Option Byte :=
  buf[(y * width + x) * bpp + k]?

/-- The placed source fits the canvas width, and the `uint32_t` products and
sums of the constants do not wrap. -/
def Geometry.Fits (g : Geometry) : Prop :=
  g.OFFSET_X + g.ORIGINAL_WIDTH ≤ g.NEW_WIDTH ∧
  g.NEW_WIDTH * g.BYTES_PER_PIXEL < U32_MOD ∧
  g.OFFSET_Y + g.ORIGINAL_HEIGHT < U32_MOD

instance (g : Geometry) : Decidable g.Fits := by
  unfold Geometry.Fits; infer_instance

/-- The two buffers of the processor have the sizes of the data model:
`width * height * bpp` bytes each. -/
def Shaped (g : Geometry) (p : ImageProcessor) : Prop :=
  p.original_img.length =
    g.ORIGINAL_WIDTH * g.ORIGINAL_HEIGHT * g.BYTES_PER_PIXEL ∧
  p.new_img.length = g.NEW_WIDTH * g.NEW_HEIGHT * g.BYTES_PER_PIXEL

instance (g : Geometry) (p : ImageProcessor) : Decidable (Shaped g p) := by
  unfold Shaped; infer_instance

/-- The same two conditions on the quantities the pass computes with: every
row copy starts and ends inside its canvas row, and both buffers consist of
whole rows. -/
structure InBounds (g : Geometry) (p : ImageProcessor) : Prop where
  fit : offset_bytes g + row_bytes g ≤ new_row_bytes g
  rows : g.OFFSET_Y + g.ORIGINAL_HEIGHT < U32_MOD
  src_len : p.original_img.length = g.ORIGINAL_HEIGHT * row_bytes g
  dst_len : p.new_img.length = g.NEW_HEIGHT * new_row_bytes g

/-- Canvas byte index `j` lies in the segment of its row that a source row is
placed on. -/
def in_segment (g : Geometry) (j : Nat) : Prop :=
  (g.OFFSET_Y ≤ j / new_row_bytes g ∧
    j / new_row_bytes g < g.OFFSET_Y + g.ORIGINAL_HEIGHT) ∧
  (offset_bytes g ≤ j % new_row_bytes g ∧
    j % new_row_bytes g < offset_bytes g + row_bytes g)

instance (g : Geometry) (j : Nat) : Decidable (in_segment g j) := by
  unfold in_segment; infer_instance

/-- The source byte index that is placed at canvas byte index `j`. -/
def source_index (g : Geometry) (j : Nat) : Nat :=
  (j / new_row_bytes g - g.OFFSET_Y) * row_bytes g +
    (j % new_row_bytes g - offset_bytes g)

/-- Row `y` belongs to the range of one of the workers of `order`. -/
def covered (g : Geometry) (num_threads : Nat) (order : List Nat) (y : Nat) :
    Prop :=
  ∃ i, i ∈ order ∧ start_y g num_threads i ≤ y ∧ y < end_y g num_threads i

/-- The scenario of the specification: a 4x4 source with one byte per pixel
placed at (2, 2) on a 10x10 canvas. -/
def scenario : Geometry :=
  { ORIGINAL_WIDTH := 4, ORIGINAL_HEIGHT := 4, NEW_WIDTH := 10,
    NEW_HEIGHT := 10, OFFSET_X := 2, OFFSET_Y := 2, BYTES_PER_PIXEL := 1 }

/-- The processor of the scenario: source filled with 5, canvas with 0. -/
def scenario_processor (tag : SimdSupport) : ImageProcessor :=
  { original_img := List.replicate 16 5, new_img := List.replicate 100 0,
    simd_support := tag }

/-- An x86-64 build with AVX2. -/
def x86_avx2 : BuildTarget :=
  { x86_64 := true, avx2 := true, sse4_1 := true, aarch64 := false }

/-- An AArch64 build. -/
def arm64 : BuildTarget :=
  { x86_64 := false, avx2 := false, sse4_1 := false, aarch64 := true }

/-- A 2x2 source placed at (1, 0) on a 2x2 canvas: the source is wider than
what is left of the canvas row. -/
def spill_corner : Geometry :=
  { ORIGINAL_WIDTH := 2, ORIGINAL_HEIGHT := 2, NEW_WIDTH := 2,
    NEW_HEIGHT := 2, OFFSET_X := 1, OFFSET_Y := 0, BYTES_PER_PIXEL := 1 }

/-- A processor for `spill_corner`. -/
def spill_corner_processor : ImageProcessor :=
  { original_img := [1, 2, 3, 4], new_img := [0, 0, 0, 0],
    simd_support := SimdSupport.AVX2 }

/-- A `float`: NaN, an infinity, or the finite value `(-1)^neg * m * 2^e`. -/
inductive F32 where
  | nan
  | inf (neg : Bool)
  | fin (neg : Bool) (m : Nat) (e : Int)
  deriving DecidableEq, Repr

/-- The quotient `m / 2^s` rounded to the nearest integer, ties to even. -/
def round_shift (m s : Nat) : Nat :=
  let q := m / 2 ^ s
  let r := m % 2 ^ s
  if 2 * r < 2 ^ s then q
  else if 2 ^ s < 2 * r then q + 1
  else if q % 2 = 0 then q else q + 1

/-- How many bits `m` has beyond 24: the least `s` with `m < 2^(24+s)`. -/
def excess_bits : Nat → Nat → Nat
  | 0, _ => 0
  | fuel + 1, m => if m < 2 ^ 24 then 0 else excess_bits fuel (m / 2) + 1

/-- The dyadic number `(-1)^neg * m * 2^e` rounded to a `float`: 24
significant bits, no exponent below -149, infinity from `2^128` on. -/
def F32.round (neg : Bool) (m : Nat) (e : Int) : F32 :=
  let s := max (excess_bits m m) (-149 - e).toNat
  let m1 := round_shift m s
  let e1 := e + (s : Int)
  if 0 ≤ e1 ∧ 2 ^ 128 ≤ m1 * 2 ^ e1.toNat then F32.inf neg
  else F32.fin neg m1 e1

/-- The product of two `float`s. -/
def F32.mul : F32 → F32 → F32
  | F32.nan, _ => F32.nan
  | _, F32.nan => F32.nan
  | F32.inf a, F32.inf b => F32.inf (xor a b)
  | F32.inf a, F32.fin b n _ => if n = 0 then F32.nan else F32.inf (xor a b)
  | F32.fin a m _, F32.inf b => if m = 0 then F32.nan else F32.inf (xor a b)
  | F32.fin a m e, F32.fin b n k => F32.round (xor a b) (m * n) (e + k)

/-- The conversion `(float) n` of an integer. -/
def F32.ofInt (n : Int) : F32 :=
  F32.round (decide (n < 0)) n.natAbs 0

/-- Comparison of two magnitudes `m * 2^e < n * 2^k`. -/
def mag_lt (m : Nat) (e : Int) (n : Nat) (k : Int) : Bool :=
  decide (m * 2 ^ (e - min e k).toNat < n * 2 ^ (k - min e k).toNat)

/-- The comparison `a < b` of two `float`s (false when one is NaN). -/
def F32.lt : F32 → F32 → Bool
  | F32.nan, _ => false
  | _, F32.nan => false
  | F32.inf a, F32.inf b => a && !b
  | F32.inf a, F32.fin _ _ _ => a
  | F32.fin _ _ _, F32.inf b => !b
  | F32.fin false m e, F32.fin false n k => mag_lt m e n k
  | F32.fin true m e, F32.fin true n k => mag_lt n k m e
  | F32.fin true m _, F32.fin false n _ => decide (m ≠ 0 ∨ n ≠ 0)
  | F32.fin false _ _, F32.fin true _ _ => false

/-- The function `std::max(a, b)`, which is `(a < b) ? b : a`. -/
def std_max (a b : F32) : F32 := if F32.lt a b then b else a

/-- The function `std::min(a, b)`, which is `(b < a) ? b : a`. -/
def std_min (a b : F32) : F32 := if F32.lt b a then b else a

/-- The integer part of the magnitude `m * 2^e`. -/
def mag_floor (m : Nat) (e : Int) : Nat :=
  if 0 ≤ e then m * 2 ^ e.toNat else m / 2 ^ (-e).toNat

/-- The conversion `static_cast<uint8_t>(x)` of a `float`: the value is
truncated toward zero; the behaviour is undefined when the result does not
fit. -/
def static_cast_u8 : F32 → Except Fault Byte
  | F32.fin neg m e =>
    if h : mag_floor m e < 256 then
      if neg = false ∨ mag_floor m e = 0 then .ok ⟨mag_floor m e, h⟩
      else .error Fault.badCast
    else .error Fault.badCast
  | _ => .error Fault.badCast

/-- The literal `0.0f`. -/
def F32.zero : F32 := F32.fin false 0 0

/-- The literal `255.0f`. -/
def F32.c255 : F32 := F32.fin false 255 0

/-- The value `1.0f`. -/
def F32.one : F32 := F32.fin false 1 0

/-- The value `2.0f`. -/
def F32.two : F32 := F32.fin false 2 0

/-- The value `0.5f`. -/
def F32.half : F32 := F32.fin false 1 (-1)

/-! ## Pixel transform: the scalar statement (lines 102-103, 142-143) -/

/-- The two statements `float val = pixels[i] * brightness;` and
`pixels[i] = static_cast<uint8_t>(std::min(255.0f, std::max(0.0f, val)));`
for the byte `b = pixels[i]`. -/
def scalar_pixel (b : Byte) (brightness : F32) : Except Fault Byte :=
  let val := F32.mul (F32.ofInt (b.val : Int)) brightness
  static_cast_u8 (std_min F32.c255 (std_max F32.zero val))

/-- The loop `while (i < len) { ...; i++; }` with `n = len - i` iterations
left. -/
def scalar_loop (brightness : F32) :
    Nat → Nat → List Byte → Except Fault (List Byte)
  | 0, _, pixels => .ok pixels
  | n + 1, i, pixels => do
    let b ← load pixels i 1
    let r ← scalar_pixel (b.headD 0) brightness
    let pixels1 ← store pixels i [r]
    scalar_loop brightness n (i + 1) pixels1

/-! ## Pixel transform: `process_pixels_avx2` (lines 110-146)

A 256-bit vector is the list of its lanes, lowest lane first. The intrinsics
follow the Intel reference; `_mm256_cvtps_epi32` rounds as the default
rounding mode of `MXCSR` says, to nearest with ties to even. -/

/-- The intrinsic `_mm256_set1_ps`. -/
def mm256_set1_ps (x : F32) : List F32 := List.replicate 8 x

/-- The intrinsic `_mm256_cvtepu8_epi32`: the low 8 bytes of a 128-bit vector,
zero-extended to 8 lanes of 32 bits. -/
def mm256_cvtepu8_epi32 (a : List Byte) : List Int :=
  (a.take 8).map fun b => (b.val : Int)

/-- The intrinsic `_mm256_cvtepi32_ps`. -/
def mm256_cvtepi32_ps (a : List Int) : List F32 := a.map F32.ofInt

/-- The intrinsic `_mm256_mul_ps`. -/
def mm256_mul_ps (a b : List F32) : List F32 := List.zipWith F32.mul a b

/-- The magnitude `m * 2^e` rounded to the nearest integer, ties to even. -/
def mag_round (m : Nat) (e : Int) : Nat :=
  if 0 ≤ e then m * 2 ^ e.toNat else round_shift m (-e).toNat

/-- One lane of `_mm256_cvtps_epi32`: the rounded value, or the "integer
indefinite" `-2^31` when the lane is NaN, infinite or out of range. -/
def cvtps_epi32_lane : F32 → Int
  | F32.fin neg m e =>
    let n : Int := if neg then -(mag_round m e : Int) else (mag_round m e : Int)
    if -2 ^ 31 ≤ n ∧ n < 2 ^ 31 then n else -2 ^ 31
  | _ => -2 ^ 31

/-- The intrinsic `_mm256_cvtps_epi32`. -/
def mm256_cvtps_epi32 (a : List F32) : List Int := a.map cvtps_epi32_lane

/-- Unsigned saturation of a signed 32-bit lane to 16 bits. -/
def saturate_u16 (n : Int) : Int := max 0 (min n 65535)

/-- The intrinsic `_mm256_packus_epi32`: within each 128-bit half, the four
lanes of `a` then the four lanes of `b`. -/
def mm256_packus_epi32 (a b : List Int) : List Int :=
  (a.take 4 ++ b.take 4 ++ a.drop 4 ++ b.drop 4).map saturate_u16

/-- Unsigned saturation to 8 bits of a 16-bit lane, which the instruction
reads as a signed number. -/
def saturate_u8 (n : Int) : Byte :=
  let s : Int := if 32768 ≤ n then n - 65536 else n
  Fin.ofNat (max 0 (min s 255)).toNat

/-- The intrinsic `_mm256_packus_epi16`: within each 128-bit half, the eight
lanes of `a` then the eight lanes of `b`. -/
def mm256_packus_epi16 (a b : List Int) : List Byte :=
  (a.take 8 ++ b.take 8 ++ a.drop 8 ++ b.drop 8).map saturate_u8

/-- The loop `while (i + 32 <= len) { ... i += 32; }` of
`process_pixels_avx2` (lines 114-138). -/
def avx2_loop (brightness : F32) (len : Nat) :
    Nat → Nat → List Byte → Except Fault (Nat × List Byte)
  | 0, _, _ => .error Fault.outOfFuel
  | fuel + 1, i, pixels =>
    if (i + 32) % SIZE_MOD ≤ len then do
      let brightness_factor := mm256_set1_ps brightness
      let _pixels_avx ← load pixels i 32
      let low128 ← load pixels i 16
      let pixels_low := mm256_cvtepu8_epi32 low128
      let float_low := mm256_cvtepi32_ps pixels_low
      let processed_low := mm256_mul_ps float_low brightness_factor
      let high128 ← load pixels (i + 16) 16
      let pixels_high := mm256_cvtepu8_epi32 high128
      let float_high := mm256_cvtepi32_ps pixels_high
      let processed_high := mm256_mul_ps float_high brightness_factor
      let result_low := mm256_cvtps_epi32 processed_low
      let result_high := mm256_cvtps_epi32 processed_high
      let result := mm256_packus_epi32 result_low result_high
      let final_result := mm256_packus_epi16 result result
      let pixels1 ← store pixels i final_result
      avx2_loop brightness len fuel ((i + 32) % SIZE_MOD) pixels1
    else .ok (i, pixels)

/-- The function `process_pixels_avx2(pixels, len, brightness)`. The vector
loop keeps `i <= len`, so the remainder loop runs `len - i` times. -/
def process_pixels_avx2 (pixels : List Byte) (len : Nat) (brightness : F32)
    (fuel : Nat) : Except Fault (List Byte) := do
  let (i, pixels1) ← avx2_loop brightness len fuel 0 pixels
  scalar_loop brightness (len - i) i pixels1

/-! ## Pixel transform: `process_pixels_neon` (lines 70-106)

A 128-bit or 64-bit vector is the list of its lanes, lowest lane first; the
intrinsics follow the Arm reference. -/

/-- The intrinsic `vdupq_n_f32`. -/
def vdupq_n_f32 (x : F32) : List F32 := List.replicate 4 x

/-- The intrinsic `vget_low_u8`. -/
def vget_low_u8 (a : List Byte) : List Byte := a.take 8

/-- The intrinsic `vget_high_u8`. -/
def vget_high_u8 (a : List Byte) : List Byte := a.drop 8

/-- The intrinsic `vmovl_u8`. -/
def vmovl_u8 (a : List Byte) : List Nat := a.map fun b => b.val

/-- The intrinsic `vget_low_u16`. -/
def vget_low_u16 (a : List Nat) : List Nat := a.take 4

/-- The intrinsic `vmovl_u16`. -/
def vmovl_u16 (a : List Nat) : List Nat := a

/-- The intrinsic `vcvtq_f32_u32`. -/
def vcvtq_f32_u32 (a : List Nat) : List F32 :=
  a.map fun (n : Nat) => F32.ofInt (n : Int)

/-- The intrinsic `vmulq_f32`. -/
def vmulq_f32 (a b : List F32) : List F32 := List.zipWith F32.mul a b

/-- One lane of `vcvtq_u32_f32`: rounding toward zero, saturating; NaN gives
0. -/
def vcvt_u32_f32_lane : F32 → Nat
  | F32.nan => 0
  | F32.inf neg => if neg then 0 else 2 ^ 32 - 1
  | F32.fin neg m e => if neg then 0 else min (mag_floor m e) (2 ^ 32 - 1)

/-- The intrinsic `vcvtq_u32_f32`. -/
def vcvtq_u32_f32 (a : List F32) : List Nat := a.map vcvt_u32_f32_lane

/-- The intrinsic `vqmovn_u32`. -/
def vqmovn_u32 (a : List Nat) : List Nat := a.map fun n => min n 65535

/-- The intrinsic `vcombine_u16`. -/
def vcombine_u16 (a b : List Nat) : List Nat := a ++ b

/-- The intrinsic `vqmovn_u16`. -/
def vqmovn_u16 (a : List Nat) : List Byte := a.map fun n => Fin.ofNat (min n 255)

/-- The loop `while (i + 16 <= len) { ... i += 16; }` of
`process_pixels_neon` (lines 74-98); `vst1_u8` stores the 8 lanes of
`result_u8`. -/
def neon_loop (brightness : F32) (len : Nat) :
    Nat → Nat → List Byte → Except Fault (Nat × List Byte)
  | 0, _, _ => .error Fault.outOfFuel
  | fuel + 1, i, pixels =>
    if (i + 16) % SIZE_MOD ≤ len then do
      let brightness_f32 := vdupq_n_f32 brightness
      let pixels_u8 ← load pixels i 16
      let pixels_u16_low := vmovl_u8 (vget_low_u8 pixels_u8)
      let pixels_u32_low := vmovl_u16 (vget_low_u16 pixels_u16_low)
      let pixels_f32_low := vcvtq_f32_u32 pixels_u32_low
      let pixels_f32_low := vmulq_f32 pixels_f32_low brightness_f32
      let pixels_u16_high := vmovl_u8 (vget_high_u8 pixels_u8)
      let pixels_u32_high := vmovl_u16 (vget_low_u16 pixels_u16_high)
      let pixels_f32_high := vcvtq_f32_u32 pixels_u32_high
      let pixels_f32_high := vmulq_f32 pixels_f32_high brightness_f32
      let result_u32_low := vcvtq_u32_f32 pixels_f32_low
      let result_u32_high := vcvtq_u32_f32 pixels_f32_high
      let result_u16 := vcombine_u16 (vqmovn_u32 result_u32_low)
        (vqmovn_u32 result_u32_high)
      let result_u8 := vqmovn_u16 result_u16
      let pixels1 ← store pixels i result_u8
      neon_loop brightness len fuel ((i + 16) % SIZE_MOD) pixels1
    else .ok (i, pixels)

/-- The function `process_pixels_neon(pixels, len, brightness)`. -/
def process_pixels_neon (pixels : List Byte) (len : Nat) (brightness : F32)
    (fuel : Nat) : Except Fault (List Byte) := do
  let (i, pixels1) ← neon_loop brightness len fuel 0 pixels
  scalar_loop brightness (len - i) i pixels1

/-- The bytes `0, 1, ..., n-1`. -/
def ramp (n : Nat) : List Byte := (List.range n).map fun k => Fin.ofNat k

/-! ## Pixel transform: reference formulas -/

/-- A `float` clamped to `[0, 255]` and then truncated toward zero; NaN
counts as 0. -/
def clamp_trunc : F32 → Byte
  | F32.nan => 0
  | F32.inf neg => if neg then 0 else 255
  | F32.fin neg m e => if neg then 0 else Fin.ofNat (min (mag_floor m e) 255)

/-- The `float` product of the byte `v` and the factor `f`, clamped to
`[0, 255]` and truncated toward zero. -/
def trunc_clamp (v : Byte) (f : F32) : Byte :=
  clamp_trunc (F32.mul (F32.ofInt (v.val : Int)) f)

/-- The dyadic number `(-1)^neg * m * 2^e` rounded to the nearest integer,
halves rounded up: `floor(x + 1/2)`. -/
def round_half_up (neg : Bool) (m : Nat) (e : Int) : Int :=
  let n : Int := if neg then -(m : Int) else (m : Int)
  if 0 ≤ e then n * 2 ^ e.toNat
  else Int.fdiv (2 * n + 2 ^ (-e).toNat) (2 ^ ((-e).toNat + 1))

/-- The formula of the specification, `clamp(round(v * f), 0, 255)` with
halves rounded up, for a finite factor `f`. -/
def spec_transform (v : Byte) : F32 → Option Byte
  | F32.fin neg m e =>
    some (Fin.ofNat (max 0 (min (round_half_up neg (v.val * m) e) 255)).toNat)
  | _ => none

/-! ## `process_image` (lines 200-289)

The clock, the codec and the output stream are outside the program; what
they answer during one call is an `Environment`. -/

/-- The structure `BenchmarkResults`; a duration is a number of clock
ticks. -/
structure BenchmarkResults where
  copy_time : Int
  encode_time : Int
  total_time : Int
  deriving DecidableEq, Repr

/-- What happens to the stream `std::ofstream outfile("output.jpg",
std::ios::binary)` of lines 274-276: the open fails; or the open succeeds,
which creates or truncates the file, and the write or the close fails after
`kept` bytes have reached the file; or everything works. -/
inductive StreamOutcome where
  | openFails
  | writeFails (kept : Nat)
  | works
  deriving DecidableEq, Repr

/-- The content of `output.jpg` after lines 274-276. A failed open leaves the
file as it was; a successful open leaves it empty, and then the bytes that
are written follow. -/
def write_output (s : StreamOutcome) (jpeg : List Byte)
    (output_jpg : Option (List Byte)) : Option (List Byte) :=
  match s with
  | StreamOutcome.openFails => output_jpg
  | StreamOutcome.writeFails kept => some (jpeg.take kept)
  | StreamOutcome.works => some jpeg

/-- What the collaborators answer during one call of `process_image`:
the successive readings of `high_resolution_clock::now()`, whether
`tjInitCompress` returns a handle, the status and the output of
`tjCompress2`, and what happens to the stream on `output.jpg`. -/
structure Environment where
  now : Nat → Int
  tjInitCompress : Bool
  tjCompress2 : Int
  jpeg_buffer : List Byte
  ofstream : StreamOutcome

/-- A C++ exception object; the program throws `std::runtime_error` only. -/
inductive Exception where
  | runtime_error (what : String)
  deriving DecidableEq, Repr

/-- How a call of `process_image` ends when it stays inside defined
behaviour: with a return value or with an exception in flight. -/
inductive Outcome where
  | returned (results : BenchmarkResults)
  | thrown (e : Exception)
  deriving DecidableEq, Repr

/-- The member function `ImageProcessor::process_image()`. Its effects are
the new state of the processor and the content of the file `output.jpg`
(`none` while the file does not exist). A stream that fails to open or to
write throws nothing (no `exceptions()` mask is set); what it leaves in the
file is `write_output`. -/
def process_image (t : BuildTarget) (g : Geometry) (fuel num_threads : Nat)
    (env : Environment) (p : ImageProcessor) (output_jpg : Option (List Byte)) :
    Except Fault (Outcome × ImageProcessor × Option (List Byte)) := do
  let start_time := env.now 0
  let copy_start := env.now 1
  let p1 ← composite t g fuel num_threads p
  let copy_time := env.now 2 - copy_start
  let encode_start := env.now 3
  if env.tjInitCompress = false then
    pure (Outcome.thrown
      (Exception.runtime_error "Failed to initialize TurboJPEG compressor"),
      p1, output_jpg)
  else if env.tjCompress2 ≠ 0 then
    pure (Outcome.thrown (Exception.runtime_error "JPEG compression failed"),
      p1, output_jpg)
  else
    let written := write_output env.ofstream env.jpeg_buffer output_jpg
    let encode_time := env.now 4 - encode_start
    let total_time := env.now 5 - start_time
    pure (Outcome.returned
      { copy_time := copy_time, encode_time := encode_time,
        total_time := total_time }, p1, written)

/-- An environment in which the clock reads `10 * k` at its `k`-th call; the
stream works when `stream` is true and fails to open otherwise. -/
def sample_environment (init : Bool) (status : Int) (stream : Bool) :
    Environment :=
  { now := fun k => 10 * (k : Int), tjInitCompress := init,
    tjCompress2 := status, jpeg_buffer := [255, 216, 255, 217],
    ofstream := if stream then StreamOutcome.works else StreamOutcome.openFails }

/-! ## The iteration loop of `main` (lines 319-355) -/

/-- The constant `iterations` of `main`. -/
def iterations : Nat := 3

/-- What `main` holds while it iterates: the processor, the file
`output.jpg` and the vector `total_results`. -/
structure MainState where
  processor : ImageProcessor
  output_jpg : Option (List Byte)
  total_results : List BenchmarkResults
  deriving DecidableEq, Repr

/-- The loop `for (int i = 0; i < iterations; ++i)` inside the `try` block,
with `n` iterations left; `envs i` is what the collaborators answer during
iteration `i`. An exception leaves the loop and reaches the handler
`catch (std::exception e)`; the result says which exception was caught, if
any. -/
def main_loop (t : BuildTarget) (g : Geometry) (fuel num_threads : Nat)
    (envs : Nat → Environment) :
    Nat → Nat → MainState → Except Fault (MainState × Option Exception)
  | 0, _, s => pure (s, none)
  | n + 1, i, s => do
    let (out, p1, file1) ← process_image t g fuel num_threads (envs i)
      s.processor s.output_jpg
    match out with
    | Outcome.thrown e =>
      pure ({ processor := p1, output_jpg := file1,
              total_results := s.total_results }, some e)
    | Outcome.returned results =>
      main_loop t g fuel num_threads envs n (i + 1)
        { processor := p1, output_jpg := file1,
          total_results := s.total_results ++ [results] }

/-- The function `main`, from the declaration of `total_results` to the end
of the handler. -/
def main (t : BuildTarget) (g : Geometry) (fuel num_threads : Nat)
    (envs : Nat → Environment) (output_jpg : Option (List Byte)) :
    Except Fault (MainState × Option Exception) :=
  main_loop t g fuel num_threads envs iterations 0
    { processor := ImageProcessor.create t g, output_jpg := output_jpg,
      total_results := [] }

/-- The codec works during the call: `tjInitCompress` gives a handle and
`tjCompress2` returns 0. -/
def codec_ok (env : Environment) : Prop :=
  env.tjInitCompress = true ∧ env.tjCompress2 = 0

instance (env : Environment) : Decidable (codec_ok env) := by
  unfold codec_ok; infer_instance

/-- The timings `process_image` returns under the clock of `env`. -/
def timings (env : Environment) : BenchmarkResults :=
  { copy_time := env.now 2 - env.now 1,
    encode_time := env.now 4 - env.now 3,
    total_time := env.now 5 - env.now 0 }

/-- The compositing passes of `n` successive calls of `process_image`. -/
def composite_passes (t : BuildTarget) (g : Geometry) (fuel num_threads : Nat) :
    Nat → ImageProcessor → Except Fault ImageProcessor
  | 0, p => pure p
  | n + 1, p => do
    let p1 ← composite t g fuel num_threads p
    composite_passes t g fuel num_threads n p1

/-! ## Which case of the `switch` of `copy_row_simd` runs -/

/-- The chunk width of the vectorised case that `copy_row_simd` takes for a
tag: 32 for `AVX2` on an x86-64 build, 16 for `NEON` on an AArch64 build;
`none` for a tag that reaches `default`, which has no chunk loop. -/
def chunk_width (t : BuildTarget) : SimdSupport → Option Nat
  | SimdSupport.NEON => if t.aarch64 then some 16 else none
  | SimdSupport.AVX2 => if t.x86_64 then some 32 else none
  | _ => none

theorem length_slice (buf : List Byte) (o n : Nat) (h : o + n ≤ buf.length) :
    ((buf.drop o).take n).length = n := by
  simp only [List.length_take, List.length_drop]
  omega

theorem getElem?_slice (buf : List Byte) (o n k : Nat) :
    ((buf.drop o).take n)[k]? = if k < n then buf[o + k]? else none := by
  by_cases hk : k < n
  · rw [List.getElem?_take_of_lt hk, List.getElem?_drop, if_pos hk]
  · rw [if_neg hk, List.getElem?_take_eq_none (by omega)]

theorem length_blit (buf : List Byte) (off : Nat) (data : List Byte)
    (h : off + data.length ≤ buf.length) :
    (blit buf off data).length = buf.length := by
  simp only [blit, List.length_append, List.length_take, List.length_drop]
  omega

theorem getElem?_blit (buf : List Byte) (off : Nat) (data : List Byte)
    (h : off + data.length ≤ buf.length) (j : Nat) :
    (blit buf off data)[j]? =
      if off ≤ j ∧ j < off + data.length then data[j - off]? else buf[j]? := by
  have hlen : (buf.take off).length = off := by
    rw [List.length_take]; omega
  unfold blit
  by_cases h1 : j < off
  · rw [if_neg (by omega), List.append_assoc,
      List.getElem?_append_left (by omega), List.getElem?_take_of_lt h1]
  · by_cases h2 : j < off + data.length
    · rw [if_pos ⟨by omega, h2⟩,
        List.getElem?_append_left (by rw [List.length_append]; omega),
        List.getElem?_append_right (by omega), hlen]
    · rw [if_neg (by omega),
        List.getElem?_append_right (by rw [List.length_append]; omega),
        List.getElem?_drop, List.length_append, hlen]
      congr 1
      omega

theorem blit_nil (buf : List Byte) (off : Nat) : blit buf off [] = buf := by
  simp [blit]

theorem blit_blit_slice (src dst : List Byte) (o off n m : Nat)
    (hs : o + (n + m) ≤ src.length) (hd : off + (n + m) ≤ dst.length) :
    blit (blit dst off ((src.drop o).take n)) (off + n)
        ((src.drop (o + n)).take m) =
      blit dst off ((src.drop o).take (n + m)) := by
  have l1 := length_slice src o n (by omega)
  have l2 := length_slice src (o + n) m (by omega)
  have l3 := length_slice src o (n + m) (by omega)
  have b1 := length_blit dst off ((src.drop o).take n) (by omega)
  apply List.ext_getElem?
  intro j
  rw [getElem?_blit _ _ _ (by omega), getElem?_blit _ _ _ (by omega),
    getElem?_blit _ _ _ (by omega), l1, l2, l3]
  simp only [getElem?_slice]
  by_cases h1 : j < off
  · rw [if_neg (by omega), if_neg (by omega), if_neg (by omega)]
  · by_cases h2 : j < off + n
    · rw [if_neg (by omega), if_pos (by omega), if_pos (by omega),
        if_pos (by omega), if_pos (by omega)]
    · by_cases h3 : j < off + n + m
      · rw [if_pos (by omega), if_pos (by omega), if_pos (by omega),
          if_pos (by omega)]
        congr 1
        omega
      · rw [if_neg (by omega), if_neg (by omega), if_neg (by omega)]

/-! ## The chunk loop of `copy_row_simd` -/

theorem load_ok (buf : List Byte) (off n : Nat) (h : off + n ≤ buf.length) :
    load buf off n = .ok ((buf.drop off).take n) := by
  simp [load, h]

theorem store_ok (buf : List Byte) (off : Nat) (data : List Byte)
    (h : off + data.length ≤ buf.length) :
    store buf off data = .ok (blit buf off data) := by
  simp [store, h]

theorem memcpy_ok (dst : List Byte) (dstOff : Nat) (src : List Byte)
    (srcOff n : Nat) (hs : srcOff + n ≤ src.length)
    (hd : dstOff + n ≤ dst.length) :
    memcpy dst dstOff src srcOff n =
      .ok (blit dst dstOff ((src.drop srcOff).take n)) := by
  have l := length_slice src srcOff n hs
  unfold memcpy
  rw [load_ok _ _ _ hs]
  show store dst dstOff _ = _
  rw [store_ok _ _ _ (by omega)]

/-- Without wrap-around the chunk loop started at `i` performs
`(width - i) / chunk` steps and leaves the destination as one block copy. -/
theorem copy_loop_ok (chunk : Nat) (src : List Byte) (srcOff dstOff width : Nat)
    (hc : 0 < chunk) (hw : width + chunk < SIZE_MOD)
    (hs : srcOff + width ≤ src.length) :
    ∀ (fuel i : Nat) (dst : List Byte), i ≤ width →
      (width - i) / chunk < fuel → dstOff + width ≤ dst.length →
      copy_loop chunk src srcOff dstOff width fuel i dst =
        .ok (i + (width - i) / chunk * chunk,
          blit dst (dstOff + i)
            ((src.drop (srcOff + i)).take ((width - i) / chunk * chunk))) := by
  intro fuel
  induction fuel with
  | zero => intro i dst _ h; exact absurd h (Nat.not_lt_zero _)
  | succ fuel ih =>
    intro i dst hi hf hd
    have hmod : (i + chunk) % SIZE_MOD = i + chunk :=
      Nat.mod_eq_of_lt (by omega)
    unfold copy_loop
    rw [hmod]
    by_cases hstep : i + chunk ≤ width
    · have hdiv : (width - i) / chunk = (width - (i + chunk)) / chunk + 1 := by
        have : width - i = (width - (i + chunk)) + chunk := by omega
        rw [this, Nat.add_div_right _ hc]
      have hq : (width - (i + chunk)) / chunk * chunk ≤ width - (i + chunk) :=
        Nat.div_mul_le_self _ _
      have l1 := length_slice src (srcOff + i) chunk (by omega)
      rw [if_pos hstep, load_ok _ _ _ (by omega)]
      show (do
        let dst1 ← store dst (dstOff + i) ((src.drop (srcOff + i)).take chunk)
        copy_loop chunk src srcOff dstOff width fuel (i + chunk) dst1) = _
      rw [store_ok _ _ _ (by omega)]
      show copy_loop chunk src srcOff dstOff width fuel (i + chunk) _ = _
      rw [ih (i + chunk) _ hstep (by omega)
        (by rw [length_blit _ _ _ (by omega)]; exact hd)]
      rw [hdiv, Nat.add_mul, Nat.one_mul]
      have e := blit_blit_slice src dst (srcOff + i) (dstOff + i) chunk
        ((width - (i + chunk)) / chunk * chunk) (by omega) (by omega)
      rw [show srcOff + (i + chunk) = srcOff + i + chunk by omega,
        show dstOff + (i + chunk) = dstOff + i + chunk by omega, e]
      rw [show chunk + (width - (i + chunk)) / chunk * chunk =
        (width - (i + chunk)) / chunk * chunk + chunk by omega]
      congr 2
      omega
    · have hz : (width - i) / chunk = 0 :=
        Nat.div_eq_of_lt (by omega)
      rw [if_neg hstep, hz]
      simp [blit_nil]

theorem copy_chunked_ok (chunk : Nat) (src : List Byte) (srcOff : Nat)
    (dst : List Byte) (dstOff width fuel : Nat)
    (hc : 0 < chunk) (hw : width + chunk < SIZE_MOD)
    (hs : srcOff + width ≤ src.length) (hd : dstOff + width ≤ dst.length)
    (hf : width / chunk < fuel) :
    copy_chunked chunk src srcOff dst dstOff width fuel =
      .ok (blit dst dstOff ((src.drop srcOff).take width)) := by
  have hq : width / chunk * chunk ≤ width := Nat.div_mul_le_self _ _
  have l1 := length_slice src srcOff (width / chunk * chunk) (by omega)
  unfold copy_chunked
  rw [copy_loop_ok chunk src srcOff dstOff width hc hw hs fuel 0 dst
    (Nat.zero_le _) (by simpa using hf) hd]
  simp only [Nat.sub_zero, Nat.zero_add, Nat.add_zero]
  show memcpy _ _ _ _ _ = _
  rw [memcpy_ok _ _ _ _ _ (by omega)
    (by rw [length_blit _ _ _ (by omega)]; omega)]
  have e := blit_blit_slice src dst srcOff dstOff (width / chunk * chunk)
    (width - width / chunk * chunk) (by omega) (by omega)
  rw [e]
  congr 3
  omega

/-- Whatever the build target and the tag, a copy that stays inside both
buffers is the block copy of `width` bytes. -/
theorem copy_row_simd_ok (t : BuildTarget) (src : List Byte) (srcOff : Nat)
    (dst : List Byte) (dstOff width : Nat) (tag : SimdSupport) (fuel : Nat)
    (hw : width + 32 < SIZE_MOD)
    (hs : srcOff + width ≤ src.length) (hd : dstOff + width ≤ dst.length)
    (hf : width / 16 < fuel) :
    copy_row_simd t src srcOff dst dstOff width tag fuel =
      .ok (blit dst dstOff ((src.drop srcOff).take width)) := by
  have h32 : width / 32 < fuel :=
    Nat.lt_of_le_of_lt (Nat.div_le_div_left (by decide) (by decide)) hf
  unfold copy_row_simd
  cases tag
  · exact memcpy_ok _ _ _ _ _ hs hd
  · show (if t.x86_64 = true then _ else _) = _
    split
    · exact copy_chunked_ok 32 _ _ _ _ _ _ (by decide) hw hs hd h32
    · exact memcpy_ok _ _ _ _ _ hs hd
  · exact memcpy_ok _ _ _ _ _ hs hd
  · show (if t.aarch64 = true then _ else _) = _
    split
    · exact copy_chunked_ok 16 _ _ _ _ _ _ (by decide) (by omega) hs hd hf
    · exact memcpy_ok _ _ _ _ _ hs hd

/-- The byte-by-byte reference copy is the block copy. -/
theorem scalar_copy_eq_blit (src : List Byte) (srcOff : Nat) (dst : List Byte)
    (dstOff : Nat) :
    ∀ n : Nat, srcOff + n ≤ src.length → dstOff + n ≤ dst.length →
      scalar_copy src srcOff dst dstOff n =
        blit dst dstOff ((src.drop srcOff).take n) := by
  intro n
  induction n with
  | zero => intro _ _; simp [scalar_copy, blit_nil]
  | succ n ih =>
    intro hs hd
    have ih1 := ih (by omega) (by omega)
    have l1 := length_slice src srcOff n (by omega)
    have l2 := length_slice src srcOff (n + 1) (by omega)
    have step : scalar_copy src srcOff dst dstOff (n + 1) =
        (scalar_copy src srcOff dst dstOff n).set (dstOff + n)
          (src.getD (srcOff + n) 0) := by
      simp [scalar_copy, List.range_succ, List.foldl_append]
    rw [step, ih1]
    apply List.ext_getElem?
    intro j
    rw [List.getElem?_set, length_blit _ _ _ (by omega),
      getElem?_blit _ _ _ (by omega), getElem?_blit _ _ _ (by omega), l1, l2]
    simp only [getElem?_slice]
    by_cases hj : dstOff + n = j
    · have hlt : srcOff + n < src.length := by omega
      rw [if_pos hj, if_pos (by omega), if_pos (by omega), if_pos (by omega)]
      rw [List.getD_eq_getElem?_getD, List.getElem?_eq_getElem hlt,
        show srcOff + (j - dstOff) = srcOff + n by omega,
        List.getElem?_eq_getElem hlt]
      rfl
    · rw [if_neg hj]
      by_cases h1 : dstOff ≤ j ∧ j < dstOff + n
      · rw [if_pos h1, if_pos (by omega), if_pos (by omega), if_pos (by omega)]
      · rw [if_neg h1, if_neg (by omega)]

/-- C1 (copy equivalence). For every build target, every capability tag and
every length `L`, when `src + srcOff` and `dst + dstOff` both have at least
`L` bytes, `copy_row_simd` returns, and the destination it leaves is the one
a byte-by-byte copy leaves; its bytes `[dstOff, dstOff + L)` are the source
bytes `[srcOff, srcOff + L)`. The length is a `size_t` with `L + 32 < 2^64`,
which every buffer of a 64-bit address space satisfies. -/
theorem copy_row_simd_copy_equivalence (t : BuildTarget) (tag : SimdSupport)
    (src dst : List Byte) (srcOff dstOff L fuel : Nat)
    (hsrc : srcOff + L ≤ src.length) (hdst : dstOff + L ≤ dst.length)
    (hsize : L + 32 < SIZE_MOD) (hfuel : L / 16 < fuel) :
    copy_row_simd t src srcOff dst dstOff L tag fuel =
        .ok (scalar_copy src srcOff dst dstOff L) ∧
      ((scalar_copy src srcOff dst dstOff L).drop dstOff).take L =
        (src.drop srcOff).take L := by
  have l1 := length_slice src srcOff L hsrc
  rw [scalar_copy_eq_blit src srcOff dst dstOff L hsrc hdst]
  refine ⟨copy_row_simd_ok t src srcOff dst dstOff L tag fuel hsize hsrc hdst hfuel, ?_⟩
  apply List.ext_getElem?
  intro k
  rw [getElem?_slice, getElem?_slice, getElem?_blit _ _ _ (by omega), l1,
    getElem?_slice]
  by_cases hk : k < L
  · rw [if_pos hk, if_pos hk, if_pos (by omega), if_pos (by omega)]
    congr 1
    omega
  · rw [if_neg hk, if_neg hk]

/-- C1, at a length of one chunk plus one byte on an AVX2 build. -/
theorem copy_row_simd_copy_equivalence_witness :
    (2 + 33 ≤ (List.replicate 40 (7 : Byte)).length ∧
      5 + 33 ≤ (List.replicate 40 (0 : Byte)).length ∧
      33 + 32 < SIZE_MOD ∧ 33 / 16 < 3) ∧
    (copy_row_simd ⟨true, true, true, false⟩ (List.replicate 40 7) 2
        (List.replicate 40 0) 5 33 SimdSupport.AVX2 3 =
        .ok (scalar_copy (List.replicate 40 7) 2 (List.replicate 40 0) 5 33) ∧
      ((scalar_copy (List.replicate 40 7) 2 (List.replicate 40 0) 5 33).drop
        5).take 33 = ((List.replicate 40 (7 : Byte)).drop 2).take 33) :=
  ⟨by decide,
    copy_row_simd_copy_equivalence ⟨true, true, true, false⟩ SimdSupport.AVX2
      (List.replicate 40 7) (List.replicate 40 0) 2 5 33 3
      (by decide) (by decide) (by decide) (by decide)⟩

/-! ## The row partition -/

theorem rows_mul_le (g : Geometry) (W : Nat) :
    W * rows_per_thread g W ≤ g.NEW_HEIGHT :=
  Nat.mul_div_le _ _

theorem end_y_le (g : Geometry) (W i : Nat) (hi : i < W) :
    end_y g W i ≤ g.NEW_HEIGHT := by
  unfold end_y
  split
  · exact Nat.le_refl _
  · exact Nat.le_trans (Nat.mul_le_mul_right _ hi) (rows_mul_le g W)

theorem end_y_le_start_y (g : Geometry) (W i j : Nat) (hij : i < j)
    (hj : j < W) : end_y g W i ≤ start_y g W j := by
  unfold end_y start_y
  rw [if_neg (by omega)]
  exact Nat.mul_le_mul_right _ hij

theorem start_y_le_end_y (g : Geometry) (W i : Nat) (hi : i < W) :
    start_y g W i ≤ end_y g W i := by
  unfold end_y start_y
  split
  · exact Nat.le_trans (Nat.mul_le_mul_right _ (Nat.le_of_lt hi)) (rows_mul_le g W)
  · exact Nat.mul_le_mul_right _ (Nat.le_succ i)

theorem ranges_disjoint (g : Geometry) (W i j y : Nat) (hi : i < W) (hj : j < W)
    (hne : i ≠ j) (h1 : start_y g W i ≤ y ∧ y < end_y g W i)
    (h2 : start_y g W j ≤ y ∧ y < end_y g W j) : False := by
  rcases Nat.lt_or_gt_of_ne hne with h | h
  · have := end_y_le_start_y g W i j h hj
    omega
  · have := end_y_le_start_y g W j i h hi
    omega

theorem range_exists (g : Geometry) (W y : Nat) (hW : 1 ≤ W)
    (hy : y < g.NEW_HEIGHT) :
    ∃ i, i < W ∧ start_y g W i ≤ y ∧ y < end_y g W i := by
  by_cases hlast : (W - 1) * rows_per_thread g W ≤ y
  · refine ⟨W - 1, by omega, hlast, ?_⟩
    unfold end_y
    rw [if_pos rfl]
    exact hy
  · have hlt : y < (W - 1) * rows_per_thread g W := Nat.lt_of_not_le hlast
    have hr : 0 < rows_per_thread g W := by
      rcases Nat.eq_zero_or_pos (rows_per_thread g W) with h0 | h0
      · rw [h0] at hlt; simp at hlt
      · exact h0
    have hq : y / rows_per_thread g W < W - 1 :=
      Nat.div_lt_of_lt_mul (by rw [Nat.mul_comm]; exact hlt)
    refine ⟨y / rows_per_thread g W, by omega, Nat.div_mul_le_self _ _, ?_⟩
    unfold end_y
    rw [if_neg (by omega), Nat.mul_comm]
    exact Nat.lt_mul_div_succ y hr

/-- C2 (partition coverage). For every worker count `W >= 1` and every
canvas height `H` (so in particular for `W` in `[1, 64]` and `H` in
`[1, 10000]`), with `r = H / W`: worker `i < W-1` gets `[i*r, (i+1)*r)` and
the last worker gets `[(W-1)*r, H)`; these ranges lie inside `[0, H)`, are
pairwise disjoint, and every row `y < H` lies in exactly one of them. -/
theorem partition_coverage (g : Geometry) (W : Nat) (hW : 1 ≤ W) :
    (∀ i, i < W →
      start_y g W i = i * (g.NEW_HEIGHT / W) ∧
      (i < W - 1 → end_y g W i = (i + 1) * (g.NEW_HEIGHT / W)) ∧
      (i = W - 1 → end_y g W i = g.NEW_HEIGHT)) ∧
    (∀ i, i < W → start_y g W i ≤ end_y g W i ∧ end_y g W i ≤ g.NEW_HEIGHT) ∧
    (∀ i j, i < W → j < W → i ≠ j → ∀ y,
      ¬ ((start_y g W i ≤ y ∧ y < end_y g W i) ∧
         (start_y g W j ≤ y ∧ y < end_y g W j))) ∧
    (∀ y, y < g.NEW_HEIGHT →
      ∃! i, i < W ∧ start_y g W i ≤ y ∧ y < end_y g W i) := by
  refine ⟨fun i _ => ⟨rfl, fun h => ?_, fun h => ?_⟩,
    fun i hi => ⟨start_y_le_end_y g W i hi, end_y_le g W i hi⟩, ?_, ?_⟩
  · unfold end_y rows_per_thread
    rw [if_neg (by omega)]
  · unfold end_y
    rw [if_pos h]
  · intro i j hi hj hne y h
    exact ranges_disjoint g W i j y hi hj hne h.1 h.2
  · intro y hy
    obtain ⟨i, hi, h1, h2⟩ := range_exists g W y hW hy
    refine ⟨i, ⟨hi, h1, h2⟩, ?_⟩
    intro j hj
    by_contra hne
    exact ranges_disjoint g W j i y hj.1 hi hne hj.2 ⟨h1, h2⟩

/-- C2, at 64 workers on the 10 rows of the scenario: `r = 0`, the workers
0..62 get the empty range `[0, 0)` and the last one `[0, 10)`. -/
theorem partition_coverage_witness :
    1 ≤ 64 ∧
    ((∀ i, i < 64 →
      start_y scenario 64 i = i * (scenario.NEW_HEIGHT / 64) ∧
      (i < 64 - 1 → end_y scenario 64 i = (i + 1) * (scenario.NEW_HEIGHT / 64)) ∧
      (i = 64 - 1 → end_y scenario 64 i = scenario.NEW_HEIGHT)) ∧
    (∀ i, i < 64 → start_y scenario 64 i ≤ end_y scenario 64 i ∧
        end_y scenario 64 i ≤ scenario.NEW_HEIGHT) ∧
    (∀ i j, i < 64 → j < 64 → i ≠ j → ∀ y,
      ¬ ((start_y scenario 64 i ≤ y ∧ y < end_y scenario 64 i) ∧
         (start_y scenario 64 j ≤ y ∧ y < end_y scenario 64 j))) ∧
    (∀ y, y < scenario.NEW_HEIGHT →
      ∃! i, i < 64 ∧ start_y scenario 64 i ≤ y ∧ y < end_y scenario 64 i)) :=
  ⟨by decide, partition_coverage scenario 64 (by decide)⟩

/-! ## The compositing pass -/

theorem seg_iff (n y j a b : Nat) (h : a + b ≤ n) :
    (y * n + a ≤ j ∧ j < y * n + a + b) ↔
      (j / n = y ∧ a ≤ j % n ∧ j % n < a + b) := by
  rcases Nat.eq_zero_or_pos n with h0 | hpos
  · subst h0
    constructor
    · rintro ⟨h1, h2⟩; omega
    · rintro ⟨_, h1, h2⟩; omega
  · constructor
    · rintro ⟨h1, h2⟩
      have hj : j = (j - y * n) + y * n := by omega
      have hlt : j - y * n < n := by omega
      have hd : j / n = y := by
        rw [hj, Nat.add_mul_div_right _ _ hpos, Nat.div_eq_of_lt hlt,
          Nat.zero_add]
      have hm : j % n = j - y * n := by
        rw [hj, Nat.add_mul_mod_self_right, Nat.mod_eq_of_lt hlt]
        omega
      omega
    · rintro ⟨h1, h2, h3⟩
      have := Nat.div_add_mod j n
      rw [h1, Nat.mul_comm] at this
      omega

theorem row_bytes_lt (g : Geometry) : row_bytes g < U32_MOD :=
  Nat.mod_lt _ (by decide)

theorem Fits.inBounds (g : Geometry) (p : ImageProcessor) (hf : g.Fits)
    (hs : Shaped g p) : InBounds g p := by
  obtain ⟨h1, h2, h3⟩ := hf
  obtain ⟨s1, s2⟩ := hs
  have e1 : g.ORIGINAL_WIDTH * g.BYTES_PER_PIXEL ≤
      g.NEW_WIDTH * g.BYTES_PER_PIXEL :=
    Nat.mul_le_mul_right _ (by omega)
  have e2 : g.OFFSET_X * g.BYTES_PER_PIXEL ≤
      g.NEW_WIDTH * g.BYTES_PER_PIXEL :=
    Nat.mul_le_mul_right _ (by omega)
  have r1 : row_bytes g = g.ORIGINAL_WIDTH * g.BYTES_PER_PIXEL :=
    Nat.mod_eq_of_lt (by omega)
  have r2 : offset_bytes g = g.OFFSET_X * g.BYTES_PER_PIXEL :=
    Nat.mod_eq_of_lt (by omega)
  have r3 : new_row_bytes g = g.NEW_WIDTH * g.BYTES_PER_PIXEL :=
    Nat.mod_eq_of_lt h2
  refine ⟨?_, h3, ?_, ?_⟩
  · rw [r1, r2, r3, ← Nat.add_mul]
    exact Nat.mul_le_mul_right _ h1
  · rw [s1, r1, Nat.mul_comm g.ORIGINAL_WIDTH, Nat.mul_assoc]
  · rw [s2, r3, Nat.mul_comm g.NEW_WIDTH, Nat.mul_assoc]

/-- A row outside `[OFFSET_Y, OFFSET_Y + ORIGINAL_HEIGHT)` is left alone. -/
theorem process_row_skip (t : BuildTarget) (g : Geometry) (fuel : Nat)
    (p : ImageProcessor) (y : Nat)
    (hrows : g.OFFSET_Y + g.ORIGINAL_HEIGHT < U32_MOD)
    (h : ¬ (g.OFFSET_Y ≤ y ∧ y < g.OFFSET_Y + g.ORIGINAL_HEIGHT)) :
    process_row t g fuel p y = .ok p := by
  unfold process_row
  rw [Nat.mod_eq_of_lt hrows, if_neg h]
  rfl

/-- A canvas row inside `[OFFSET_Y, OFFSET_Y + ORIGINAL_HEIGHT)` receives one
block copy of `row_bytes` bytes. -/
theorem process_row_placed (t : BuildTarget) (g : Geometry) (fuel : Nat)
    (p : ImageProcessor) (y : Nat) (hb : InBounds g p)
    (hf : row_bytes g / 16 < fuel) (hy : y < g.NEW_HEIGHT)
    (h : g.OFFSET_Y ≤ y ∧ y < g.OFFSET_Y + g.ORIGINAL_HEIGHT) :
    process_row t g fuel p y =
      .ok { p with
        new_img := (blit p.new_img (y * new_row_bytes g + offset_bytes g)
          ((p.original_img.drop ((y - g.OFFSET_Y) * row_bytes g)).take
            (row_bytes g))) } := by
  have hsrc : (y - g.OFFSET_Y) * row_bytes g + row_bytes g ≤
      p.original_img.length := by
    rw [hb.src_len, ← Nat.succ_mul]
    exact Nat.mul_le_mul_right _ (by omega)
  have hdst : y * new_row_bytes g + offset_bytes g + row_bytes g ≤
      p.new_img.length := by
    have h1 : (y + 1) * new_row_bytes g ≤ g.NEW_HEIGHT * new_row_bytes g :=
      Nat.mul_le_mul_right _ hy
    have h2 := hb.fit
    rw [hb.dst_len]
    rw [Nat.succ_mul] at h1
    omega
  have hw : row_bytes g + 32 < SIZE_MOD := by
    have := row_bytes_lt g
    simp only [U32_MOD, SIZE_MOD] at *
    omega
  unfold process_row
  rw [Nat.mod_eq_of_lt hb.rows, if_pos h]
  show (if y - g.OFFSET_Y < g.ORIGINAL_HEIGHT then _ else _) = _
  rw [if_pos (by omega),
    copy_row_simd_ok t _ _ _ _ _ _ fuel hw hsrc hdst hf]
  rfl

/-- What one row of the loop does, byte by byte. -/
theorem process_row_spec (t : BuildTarget) (g : Geometry) (fuel : Nat)
    (p : ImageProcessor) (y : Nat) (hb : InBounds g p)
    (hf : row_bytes g / 16 < fuel) (hy : y < g.NEW_HEIGHT) :
    ∃ p1, process_row t g fuel p y = .ok p1 ∧
      p1.original_img = p.original_img ∧ p1.simd_support = p.simd_support ∧
      InBounds g p1 ∧
      ∀ j, ((j / new_row_bytes g = y ∧ in_segment g j) →
              p1.new_img[j]? = p.original_img[source_index g j]?) ∧
           (¬ (j / new_row_bytes g = y ∧ in_segment g j) →
              p1.new_img[j]? = p.new_img[j]?) := by
  by_cases h : g.OFFSET_Y ≤ y ∧ y < g.OFFSET_Y + g.ORIGINAL_HEIGHT
  · have hsrc : (y - g.OFFSET_Y) * row_bytes g + row_bytes g ≤
        p.original_img.length := by
      rw [hb.src_len, ← Nat.succ_mul]
      exact Nat.mul_le_mul_right _ (by omega)
    have hdst : y * new_row_bytes g + offset_bytes g + row_bytes g ≤
        p.new_img.length := by
      have h1 : (y + 1) * new_row_bytes g ≤ g.NEW_HEIGHT * new_row_bytes g :=
        Nat.mul_le_mul_right _ hy
      have h2 := hb.fit
      rw [hb.dst_len]
      rw [Nat.succ_mul] at h1
      omega
    have l1 := length_slice p.original_img ((y - g.OFFSET_Y) * row_bytes g)
      (row_bytes g) hsrc
    refine ⟨_, process_row_placed t g fuel p y hb hf hy h, rfl, rfl, ?_, ?_⟩
    · exact ⟨hb.fit, hb.rows, hb.src_len, by
        show (blit _ _ _).length = _
        rw [length_blit _ _ _ (by omega)]; exact hb.dst_len⟩
    · intro j
      show ((j / new_row_bytes g = y ∧ in_segment g j) →
          (blit _ _ _)[j]? = _) ∧
        (¬ (j / new_row_bytes g = y ∧ in_segment g j) → (blit _ _ _)[j]? = _)
      rw [getElem?_blit _ _ _ (by omega), l1, getElem?_slice]
      have hiff := seg_iff (new_row_bytes g) y j (offset_bytes g) (row_bytes g)
        hb.fit
      constructor
      · rintro ⟨hr, hseg⟩
        have hin : y * new_row_bytes g + offset_bytes g ≤ j ∧
            j < y * new_row_bytes g + offset_bytes g + row_bytes g :=
          hiff.2 ⟨hr, hseg.2⟩
        have hmod : j % new_row_bytes g = j - y * new_row_bytes g := by
          have := Nat.div_add_mod j (new_row_bytes g)
          rw [hr, Nat.mul_comm] at this
          omega
        rw [if_pos hin, if_pos (by omega)]
        unfold source_index
        rw [hr, hmod]
        congr 1
        omega
      · intro hn
        rw [if_neg]
        intro hin
        have h3 := hiff.1 hin
        exact hn ⟨h3.1, ⟨by rw [h3.1]; exact h, h3.2⟩⟩
  · refine ⟨p, process_row_skip t g fuel p y hb.rows h, rfl, rfl, hb, ?_⟩
    intro j
    constructor
    · rintro ⟨hr, hseg⟩
      exact absurd (by rw [← hr]; exact hseg.1) h
    · intro _; rfl

/-- What a run of `n` consecutive rows starting at `y` does, byte by byte. -/
theorem process_rows_spec (t : BuildTarget) (g : Geometry) (fuel : Nat)
    (hf : row_bytes g / 16 < fuel) :
    ∀ (n y : Nat) (p : ImageProcessor), InBounds g p →
      y + n ≤ g.NEW_HEIGHT →
      ∃ p2, process_rows t g fuel n y p = .ok p2 ∧
        p2.original_img = p.original_img ∧
        p2.simd_support = p.simd_support ∧ InBounds g p2 ∧
        ∀ j, (((y ≤ j / new_row_bytes g ∧ j / new_row_bytes g < y + n) ∧
                in_segment g j) →
                p2.new_img[j]? = p.original_img[source_index g j]?) ∧
             (¬ ((y ≤ j / new_row_bytes g ∧ j / new_row_bytes g < y + n) ∧
                in_segment g j) →
                p2.new_img[j]? = p.new_img[j]?) := by
  intro n
  induction n with
  | zero =>
    intro y p hb _
    refine ⟨p, rfl, rfl, rfl, hb, fun j => ⟨?_, fun _ => rfl⟩⟩
    rintro ⟨⟨h1, h2⟩, _⟩
    omega
  | succ n ih =>
    intro y p hb hy
    obtain ⟨p1, e1, s1, t1, b1, r1⟩ :=
      process_row_spec t g fuel p y hb hf (by omega)
    obtain ⟨p2, e2, s2, t2, b2, r2⟩ := ih (y + 1) p1 b1 (by omega)
    refine ⟨p2, ?_, by rw [s2, s1], by rw [t2, t1], b2, ?_⟩
    · show (process_row t g fuel p y >>= fun q =>
        process_rows t g fuel n (y + 1) q) = _
      rw [e1]
      exact e2
    · intro j
      constructor
      · rintro ⟨⟨h1, h2⟩, hseg⟩
        by_cases hr : j / new_row_bytes g = y
        · rw [(r2 j).2 (by rintro ⟨⟨h3, _⟩, _⟩; omega)]
          exact (r1 j).1 ⟨hr, hseg⟩
        · rw [(r2 j).1 ⟨⟨by omega, by omega⟩, hseg⟩, s1]
      · intro hn
        rw [(r2 j).2 (by rintro ⟨⟨h3, h4⟩, h5⟩; exact hn ⟨⟨by omega, by omega⟩, h5⟩)]
        exact (r1 j).2 (by rintro ⟨h3, h5⟩; exact hn ⟨⟨by omega, by omega⟩, h5⟩)

/-- What the chunk of worker `i` does, byte by byte. -/
theorem process_chunk_spec (t : BuildTarget) (g : Geometry) (fuel W i : Nat)
    (p : ImageProcessor) (hf : row_bytes g / 16 < fuel) (hi : i < W)
    (hb : InBounds g p) :
    ∃ p2, process_chunk t g fuel p (start_y g W i) (end_y g W i) = .ok p2 ∧
      p2.original_img = p.original_img ∧
      p2.simd_support = p.simd_support ∧ InBounds g p2 ∧
      ∀ j, (((start_y g W i ≤ j / new_row_bytes g ∧
              j / new_row_bytes g < end_y g W i) ∧ in_segment g j) →
              p2.new_img[j]? = p.original_img[source_index g j]?) ∧
           (¬ ((start_y g W i ≤ j / new_row_bytes g ∧
              j / new_row_bytes g < end_y g W i) ∧ in_segment g j) →
              p2.new_img[j]? = p.new_img[j]?) := by
  have h1 := start_y_le_end_y g W i hi
  have h2 := end_y_le g W i hi
  have e : start_y g W i + (end_y g W i - start_y g W i) = end_y g W i := by
    omega
  have := process_rows_spec t g fuel hf (end_y g W i - start_y g W i)
    (start_y g W i) p hb (by omega)
  rw [e] at this
  exact this

/-- What the workers of `order`, run one after the other, do byte by byte. -/
theorem run_workers_spec (t : BuildTarget) (g : Geometry) (fuel W : Nat)
    (hf : row_bytes g / 16 < fuel) :
    ∀ (order : List Nat) (p : ImageProcessor), (∀ i ∈ order, i < W) →
      InBounds g p →
      ∃ p2, run_workers t g fuel W order p = .ok p2 ∧
        p2.original_img = p.original_img ∧
        p2.simd_support = p.simd_support ∧ InBounds g p2 ∧
        ∀ j, ((covered g W order (j / new_row_bytes g) ∧ in_segment g j) →
                p2.new_img[j]? = p.original_img[source_index g j]?) ∧
             (¬ (covered g W order (j / new_row_bytes g) ∧ in_segment g j) →
                p2.new_img[j]? = p.new_img[j]?) := by
  intro order
  induction order with
  | nil =>
    intro p _ hb
    refine ⟨p, rfl, rfl, rfl, hb, fun j => ⟨?_, fun _ => rfl⟩⟩
    rintro ⟨⟨i, hi, _⟩, _⟩
    simp at hi
  | cons i rest ih =>
    intro p hlt hb
    obtain ⟨p1, e1, s1, t1, b1, r1⟩ :=
      process_chunk_spec t g fuel W i p hf (hlt i (List.mem_cons_self _ _)) hb
    obtain ⟨p2, e2, s2, t2, b2, r2⟩ :=
      ih p1 (fun k hk => hlt k (List.mem_cons_of_mem _ hk)) b1
    refine ⟨p2, ?_, by rw [s2, s1], by rw [t2, t1], b2, ?_⟩
    · show (process_chunk t g fuel p (start_y g W i) (end_y g W i) >>=
        fun q => run_workers t g fuel W rest q) = _
      rw [e1]
      exact e2
    · intro j
      constructor
      · rintro ⟨⟨k, hk, hrange⟩, hseg⟩
        by_cases hc : covered g W rest (j / new_row_bytes g)
        · rw [(r2 j).1 ⟨hc, hseg⟩, s1]
        · rw [(r2 j).2 (fun h => hc h.1)]
          rcases List.mem_cons.1 hk with hki | hkr
          · subst hki
            exact (r1 j).1 ⟨hrange, hseg⟩
          · exact absurd ⟨k, hkr, hrange⟩ hc
      · intro hn
        rw [(r2 j).2 (by
          rintro ⟨⟨k, hk, hrange⟩, hseg⟩
          exact hn ⟨⟨k, List.mem_cons_of_mem _ hk, hrange⟩, hseg⟩)]
        exact (r1 j).2 (by
          rintro ⟨hrange, hseg⟩
          exact hn ⟨⟨i, List.mem_cons_self _ _, hrange⟩, hseg⟩)

theorem covered_range_iff (g : Geometry) (W y : Nat) (hW : 1 ≤ W) :
    covered g W (List.range W) y ↔ y < g.NEW_HEIGHT := by
  constructor
  · rintro ⟨i, hi, _, h2⟩
    have := end_y_le g W i (List.mem_range.1 hi)
    omega
  · intro hy
    obtain ⟨i, hi, h⟩ := range_exists g W y hW hy
    exact ⟨i, List.mem_range.2 hi, h⟩

/-- What the compositing pass does, byte by byte: it returns, it leaves the
source alone, and canvas byte `j` holds the source byte placed there when `j`
lies in the placed segment of a canvas row, and its old value otherwise. -/
theorem composite_spec (t : BuildTarget) (g : Geometry) (fuel W : Nat)
    (p : ImageProcessor) (hf : row_bytes g / 16 < fuel) (hW : 1 ≤ W)
    (hb : InBounds g p) :
    ∃ p2, composite t g fuel W p = .ok p2 ∧
      p2.original_img = p.original_img ∧
      p2.simd_support = p.simd_support ∧ InBounds g p2 ∧
      ∀ j, ((j / new_row_bytes g < g.NEW_HEIGHT ∧ in_segment g j) →
              p2.new_img[j]? = p.original_img[source_index g j]?) ∧
           (¬ (j / new_row_bytes g < g.NEW_HEIGHT ∧ in_segment g j) →
              p2.new_img[j]? = p.new_img[j]?) := by
  obtain ⟨p2, e, s1, t1, b, r⟩ := run_workers_spec t g fuel W hf (List.range W) p
    (fun i hi => List.mem_range.1 hi) hb
  refine ⟨p2, ?_, s1, t1, b, ?_⟩
  · unfold composite
    rw [if_neg (by omega)]
    exact e
  · intro j
    rw [← covered_range_iff g W _ hW]
    exact r j

theorem pixel_index (y w x b k : Nat) :
    (y * w + x) * b + k = y * (w * b) + (x * b + k) := by
  rw [Nat.add_mul, Nat.mul_assoc, Nat.add_assoc]

theorem pixel_col_lt (x w b k : Nat) (hx : x < w) (hk : k < b) :
    x * b + k < w * b := by
  have h1 : (x + 1) * b ≤ w * b := Nat.mul_le_mul_right _ hx
  rw [Nat.succ_mul] at h1
  omega

theorem row_col_of_lt (y n c : Nat) (hc : c < n) :
    (y * n + c) / n = y ∧ (y * n + c) % n = c := by
  have hpos : 0 < n := by omega
  constructor
  · rw [Nat.add_comm, Nat.add_mul_div_right _ _ hpos, Nat.div_eq_of_lt hc,
      Nat.zero_add]
  · rw [Nat.add_comm, Nat.add_mul_mod_self_right, Nat.mod_eq_of_lt hc]

theorem Fits.bytes (g : Geometry) (hf : g.Fits) :
    row_bytes g = g.ORIGINAL_WIDTH * g.BYTES_PER_PIXEL ∧
    offset_bytes g = g.OFFSET_X * g.BYTES_PER_PIXEL ∧
    new_row_bytes g = g.NEW_WIDTH * g.BYTES_PER_PIXEL := by
  obtain ⟨h1, h2, _⟩ := hf
  have e1 : g.ORIGINAL_WIDTH * g.BYTES_PER_PIXEL ≤
      g.NEW_WIDTH * g.BYTES_PER_PIXEL :=
    Nat.mul_le_mul_right _ (by omega)
  have e2 : g.OFFSET_X * g.BYTES_PER_PIXEL ≤
      g.NEW_WIDTH * g.BYTES_PER_PIXEL :=
    Nat.mul_le_mul_right _ (by omega)
  exact ⟨Nat.mod_eq_of_lt (by omega), Nat.mod_eq_of_lt (by omega),
    Nat.mod_eq_of_lt h2⟩

/-! ## Placement (C3) -/

/-- C3, counterexample. On a 2x2 canvas with a 2x2 source at offset (1, 0)
the copy of the last row starts at byte 3 and is 2 bytes long: the pass
leaves the 4-byte canvas buffer and yields no canvas at all. -/
theorem placement_counterexample :
    Shaped spill_corner spill_corner_processor ∧
    composite x86_avx2 spill_corner 1 1 spill_corner_processor =
      .error Fault.outOfBounds := by
  decide

/-- C3, amended (placement correctness). For every geometry whose placed
source fits the canvas width (`Ox + Sw <= Cw`, no wrap in the constants),
every build target, every worker count `W >= 1` and every content of the two
buffers, the pass returns, and byte `k` of every canvas pixel `(x, y)` with
`Ox <= x < Ox+Sw`, `Oy <= y < Oy+Sh`, `x < Cw` and `y < Ch` is byte `k` of
source pixel `(x-Ox, y-Oy)`. -/
theorem placement_correct (t : BuildTarget) (g : Geometry) (fuel W : Nat)
    (p : ImageProcessor) (hfit : g.Fits) (hs : Shaped g p) (hW : 1 ≤ W)
    (hf : row_bytes g / 16 < fuel) :
    ∃ p2, composite t g fuel W p = .ok p2 ∧
      ∀ x y k, g.OFFSET_X ≤ x → x < g.OFFSET_X + g.ORIGINAL_WIDTH →
        g.OFFSET_Y ≤ y → y < g.OFFSET_Y + g.ORIGINAL_HEIGHT →
        x < g.NEW_WIDTH → y < g.NEW_HEIGHT → k < g.BYTES_PER_PIXEL →
        ∃ b, pixel_byte p.original_img g.ORIGINAL_WIDTH g.BYTES_PER_PIXEL
              (x - g.OFFSET_X) (y - g.OFFSET_Y) k = some b ∧
          pixel_byte p2.new_img g.NEW_WIDTH g.BYTES_PER_PIXEL x y k =
            some b := by
  obtain ⟨rb, ob, nb⟩ := Fits.bytes g hfit
  obtain ⟨p2, e, _, _, _, r⟩ :=
    composite_spec t g fuel W p hf hW (Fits.inBounds g p hfit hs)
  refine ⟨p2, e, ?_⟩
  intro x y k hx1 hx2 hy1 hy2 hx3 hy3 hk
  have hc := pixel_col_lt x g.NEW_WIDTH g.BYTES_PER_PIXEL k hx3 hk
  obtain ⟨hrow, hcol⟩ := row_col_of_lt y (g.NEW_WIDTH * g.BYTES_PER_PIXEL)
    (x * g.BYTES_PER_PIXEL + k) hc
  have hlo : g.OFFSET_X * g.BYTES_PER_PIXEL ≤ x * g.BYTES_PER_PIXEL :=
    Nat.mul_le_mul_right _ hx1
  have hsub : x * g.BYTES_PER_PIXEL + k - g.OFFSET_X * g.BYTES_PER_PIXEL =
      (x - g.OFFSET_X) * g.BYTES_PER_PIXEL + k := by
    rw [Nat.sub_mul]; omega
  have hsc := pixel_col_lt (x - g.OFFSET_X) g.ORIGINAL_WIDTH g.BYTES_PER_PIXEL
    k (by omega) hk
  have hseg : in_segment g
      (y * (g.NEW_WIDTH * g.BYTES_PER_PIXEL) + (x * g.BYTES_PER_PIXEL + k)) := by
    unfold in_segment
    rw [nb, hrow, hcol, ob, rb]
    refine ⟨⟨hy1, hy2⟩, by omega, ?_⟩
    rw [← Nat.add_mul]
    exact pixel_col_lt x _ _ k hx2 hk
  have hidx : source_index g
      (y * (g.NEW_WIDTH * g.BYTES_PER_PIXEL) + (x * g.BYTES_PER_PIXEL + k)) =
      ((y - g.OFFSET_Y) * g.ORIGINAL_WIDTH + (x - g.OFFSET_X)) *
        g.BYTES_PER_PIXEL + k := by
    unfold source_index
    rw [nb, hrow, hcol, ob, rb, hsub, pixel_index]
  have hlt : ((y - g.OFFSET_Y) * g.ORIGINAL_WIDTH + (x - g.OFFSET_X)) *
      g.BYTES_PER_PIXEL + k < p.original_img.length := by
    rw [hs.1, pixel_index, Nat.mul_comm g.ORIGINAL_WIDTH g.ORIGINAL_HEIGHT,
      Nat.mul_assoc]
    have h1 : (y - g.OFFSET_Y + 1) * (g.ORIGINAL_WIDTH * g.BYTES_PER_PIXEL) ≤
        g.ORIGINAL_HEIGHT * (g.ORIGINAL_WIDTH * g.BYTES_PER_PIXEL) :=
      Nat.mul_le_mul_right _ (by omega)
    rw [Nat.succ_mul] at h1
    omega
  refine ⟨p.original_img[((y - g.OFFSET_Y) * g.ORIGINAL_WIDTH +
    (x - g.OFFSET_X)) * g.BYTES_PER_PIXEL + k], ?_, ?_⟩
  · unfold pixel_byte
    exact List.getElem?_eq_getElem hlt
  · unfold pixel_byte
    rw [pixel_index, (r _).1 ⟨by rw [nb, hrow]; exact hy3, hseg⟩, hidx]
    exact List.getElem?_eq_getElem hlt

/-- C3, the scenario of the specification: a 4x4 source of value 5 with one
byte per pixel, placed at (2, 2) on a 10x10 zero canvas by 3 workers, gives 5
in rows 2..5, columns 2..5 and 0 elsewhere. -/
theorem placement_correct_witness :
    (scenario.Fits ∧ Shaped scenario (scenario_processor SimdSupport.AVX2) ∧
      1 ≤ 3 ∧ row_bytes scenario / 16 < 1) ∧
    (∃ p2, composite x86_avx2 scenario 1 3
        (scenario_processor SimdSupport.AVX2) = .ok p2 ∧
      ∀ x y k, scenario.OFFSET_X ≤ x →
        x < scenario.OFFSET_X + scenario.ORIGINAL_WIDTH →
        scenario.OFFSET_Y ≤ y → y < scenario.OFFSET_Y + scenario.ORIGINAL_HEIGHT →
        x < scenario.NEW_WIDTH → y < scenario.NEW_HEIGHT →
        k < scenario.BYTES_PER_PIXEL →
        ∃ b, pixel_byte (scenario_processor SimdSupport.AVX2).original_img
              scenario.ORIGINAL_WIDTH scenario.BYTES_PER_PIXEL
              (x - scenario.OFFSET_X) (y - scenario.OFFSET_Y) k = some b ∧
          pixel_byte p2.new_img scenario.NEW_WIDTH scenario.BYTES_PER_PIXEL
            x y k = some b) ∧
    composite x86_avx2 scenario 1 3 (scenario_processor SimdSupport.AVX2) =
      .ok { scenario_processor SimdSupport.AVX2 with
        new_img := (List.range 100).map fun j =>
          if 2 ≤ j / 10 ∧ j / 10 < 6 ∧ 2 ≤ j % 10 ∧ j % 10 < 6 then 5 else 0 } :=
  ⟨by decide,
    placement_correct x86_avx2 scenario 1 3 (scenario_processor SimdSupport.AVX2)
      (by decide) (by decide) (by decide) (by decide),
    by decide⟩

/-! ## Clipping (C4) -/

theorem lt_zero_fin (m : Nat) (e : Int) :
    F32.lt F32.zero (F32.fin false m e) = decide (0 < m) := by
  have h2 : 0 < 2 ^ (e - min 0 e).toNat := Nat.two_pow_pos _
  simp only [F32.lt, F32.zero, mag_lt, Nat.zero_mul]
  by_cases hm : 0 < m
  · simp [hm, Nat.mul_pos hm h2]
  · have : m = 0 := by omega
    simp [this]

theorem lt_fin_c255 (m : Nat) (e : Int) :
    F32.lt (F32.fin false m e) F32.c255 = decide (mag_floor m e < 255) := by
  simp only [F32.lt, F32.c255, mag_lt, mag_floor]
  by_cases he : 0 ≤ e
  · have h1 : min e 0 = 0 := by omega
    simp only [h1, he, if_true]
    simp
  · have h1 : min e 0 = e := by omega
    have hpos : 0 < 2 ^ (-e).toNat := Nat.two_pow_pos _
    simp only [h1, he, if_false]
    simp only [sub_self, Int.toNat_zero, pow_zero, Nat.mul_one, zero_sub]
    congr 1
    rw [Nat.div_lt_iff_lt_mul hpos]

/-- The clamp with `std::max` and `std::min` followed by the cast never
leaves defined behaviour and is `clamp_trunc`. -/
theorem clamp_cast (x : F32) :
    static_cast_u8 (std_min F32.c255 (std_max F32.zero x)) =
      .ok (clamp_trunc x) := by
  cases x with
  | nan => decide
  | inf neg => cases neg <;> decide
  | fin neg m e =>
    cases neg with
    | true => rfl
    | false =>
      unfold std_max
      rw [lt_zero_fin]
      by_cases hm : 0 < m
      · simp only [hm, decide_True, if_true]
        unfold std_min
        rw [lt_fin_c255]
        by_cases hlt : mag_floor m e < 255
        · simp only [hlt, decide_True, if_true, static_cast_u8, clamp_trunc]
          rw [dif_pos (by omega)]
          simp only [true_or, if_true]
          congr 1
          apply Fin.ext
          simp [Fin.ofNat]
          omega
        · simp only [hlt, decide_False, clamp_trunc]
          have : min (mag_floor m e) 255 = 255 := by omega
          rw [this]
          rfl
      · have h0 : m = 0 := by omega
        subst h0
        have hz : mag_floor 0 e = 0 := by
          simp [mag_floor]
        simp only [clamp_trunc, hz]
        rfl

theorem bind_ok {α β : Type} (a : α) (f : α → Except Fault β) :
    (Except.ok a >>= f) = f a := rfl

theorem slice_one (l : List Byte) (i : Nat) (h : i < l.length) :
    (l.drop i).take 1 = [l[i]] := by
  apply List.ext_getElem?
  intro k
  rw [getElem?_slice]
  cases k with
  | zero => simp [List.getElem?_eq_getElem h]
  | succ k => simp

/-- The remainder loop run for `n` bytes from index `i` returns and replaces
each of these bytes `v` by `trunc_clamp v f`. -/
theorem scalar_loop_spec (f : F32) :
    ∀ (n i : Nat) (pixels : List Byte), i + n ≤ pixels.length →
      ∃ out, scalar_loop f n i pixels = .ok out ∧
        out.length = pixels.length ∧
        ∀ j, out[j]? =
          if i ≤ j ∧ j < i + n then (pixels[j]?).map (fun v => trunc_clamp v f)
          else pixels[j]? := by
  intro n
  induction n with
  | zero =>
    intro i pixels _
    refine ⟨pixels, rfl, rfl, fun j => ?_⟩
    rw [if_neg (by omega)]
  | succ n ih =>
    intro i pixels h
    have hi : i < pixels.length := by omega
    have hst : i + ([trunc_clamp pixels[i] f] : List Byte).length ≤
        pixels.length := by
      simp; omega
    obtain ⟨out, e, l, r⟩ := ih (i + 1) (blit pixels i [trunc_clamp pixels[i] f])
      (by rw [length_blit _ _ _ hst]; omega)
    refine ⟨out, ?_, by rw [l, length_blit _ _ _ hst], ?_⟩
    · unfold scalar_loop
      have hr : scalar_pixel pixels[i] f = .ok (trunc_clamp pixels[i] f) :=
        clamp_cast _
      rw [load_ok _ _ _ (by omega), bind_ok, slice_one _ _ hi]
      simp only [List.headD_cons]
      rw [hr, bind_ok, store_ok _ _ _ hst, bind_ok]
      exact e
    · intro j
      rw [r j, getElem?_blit _ _ _ hst]
      simp only [List.length_singleton]
      by_cases h1 : j = i
      · subst h1
        rw [if_neg (by omega), if_pos (by omega), if_pos (by omega)]
        simp [List.getElem?_eq_getElem hi]
      · by_cases h2 : i + 1 ≤ j ∧ j < i + 1 + n
        · rw [if_pos h2, if_neg (by omega), if_pos (by omega)]
        · rw [if_neg h2, if_neg (by omega), if_neg (by omega)]

/-! ## The vector loops of the pixel transform -/

theorem length_avx2_lanes (a b : List Byte) (f : F32) (ha : a.length = 16)
    (hb : b.length = 16) :
    (mm256_packus_epi16
      (mm256_packus_epi32
        (mm256_cvtps_epi32 (mm256_mul_ps
          (mm256_cvtepi32_ps (mm256_cvtepu8_epi32 a)) (mm256_set1_ps f)))
        (mm256_cvtps_epi32 (mm256_mul_ps
          (mm256_cvtepi32_ps (mm256_cvtepu8_epi32 b)) (mm256_set1_ps f))))
      (mm256_packus_epi32
        (mm256_cvtps_epi32 (mm256_mul_ps
          (mm256_cvtepi32_ps (mm256_cvtepu8_epi32 a)) (mm256_set1_ps f)))
        (mm256_cvtps_epi32 (mm256_mul_ps
          (mm256_cvtepi32_ps (mm256_cvtepu8_epi32 b)) (mm256_set1_ps f))))).length =
      32 := by
  simp only [mm256_packus_epi16, mm256_packus_epi32, mm256_cvtps_epi32,
    mm256_mul_ps, mm256_cvtepi32_ps, mm256_cvtepu8_epi32, mm256_set1_ps,
    List.length_map, List.length_append, List.length_take, List.length_drop,
    List.length_zipWith, List.length_replicate, ha, hb]
  rfl

/-- Without wrap-around the AVX2 loop returns after `(len - i) / 32` steps and
leaves every byte from its final index on as it was. -/
theorem avx2_loop_spec (f : F32) (len : Nat) (hw : len + 32 < SIZE_MOD) :
    ∀ (fuel i : Nat) (pixels : List Byte), i ≤ len → len ≤ pixels.length →
      (len - i) / 32 < fuel →
      ∃ out, avx2_loop f len fuel i pixels =
          .ok (i + (len - i) / 32 * 32, out) ∧
        out.length = pixels.length ∧
        ∀ j, i + (len - i) / 32 * 32 ≤ j → out[j]? = pixels[j]? := by
  intro fuel
  induction fuel with
  | zero => intro i pixels _ _ h; exact absurd h (Nat.not_lt_zero _)
  | succ fuel ih =>
    intro i pixels hi hl hf
    have hmod : (i + 32) % SIZE_MOD = i + 32 := Nat.mod_eq_of_lt (by omega)
    unfold avx2_loop
    rw [hmod]
    by_cases hstep : i + 32 ≤ len
    · have hdiv : (len - i) / 32 = (len - (i + 32)) / 32 + 1 := by omega
      rw [if_pos hstep, load_ok _ _ _ (by omega), bind_ok,
        load_ok _ _ _ (by omega), bind_ok, load_ok _ _ _ (by omega), bind_ok]
      have l1 := length_slice pixels i 16 (by omega)
      have l2 := length_slice pixels (i + 16) 16 (by omega)
      simp only []
      generalize hfin : mm256_packus_epi16 _ _ = final
      have lf : final.length = 32 := by
        rw [← hfin]
        exact length_avx2_lanes _ _ f l1 l2
      rw [store_ok _ _ _ (by omega), bind_ok]
      obtain ⟨out, e, l, r⟩ := ih (i + 32) (blit pixels i final) hstep
        (by rw [length_blit _ _ _ (by omega)]; exact hl) (by omega)
      refine ⟨out, ?_, by rw [l, length_blit _ _ _ (by omega)], ?_⟩
      · rewrite [e, hdiv]
        congr 2
        omega
      · intro j hj
        rewrite [r j (by omega), getElem?_blit _ _ _ (by omega),
          if_neg (by omega)]
        rfl
    · have hz : (len - i) / 32 = 0 := Nat.div_eq_of_lt (by omega)
      rw [if_neg hstep, hz]
      exact ⟨pixels, by simp, rfl, fun j _ => rfl⟩

theorem length_neon_lanes (a : List Byte) (f : F32) (ha : a.length = 16) :
    (vqmovn_u16 (vcombine_u16
      (vqmovn_u32 (vcvtq_u32_f32 (vmulq_f32
        (vcvtq_f32_u32 (vmovl_u16 (vget_low_u16 (vmovl_u8 (vget_low_u8 a)))))
        (vdupq_n_f32 f))))
      (vqmovn_u32 (vcvtq_u32_f32 (vmulq_f32
        (vcvtq_f32_u32 (vmovl_u16 (vget_low_u16 (vmovl_u8 (vget_high_u8 a)))))
        (vdupq_n_f32 f)))))).length = 8 := by
  simp only [vqmovn_u16, vcombine_u16, vqmovn_u32, vcvtq_u32_f32, vmulq_f32,
    vcvtq_f32_u32, vmovl_u16, vget_low_u16, vmovl_u8, vget_low_u8,
    vget_high_u8, vdupq_n_f32,
    List.length_map, List.length_append, List.length_take, List.length_drop,
    List.length_zipWith, List.length_replicate, ha]
  rfl

/-- Without wrap-around the NEON loop returns after `(len - i) / 16` steps and
leaves every byte from its final index on as it was. -/
theorem neon_loop_spec (f : F32) (len : Nat) (hw : len + 16 < SIZE_MOD) :
    ∀ (fuel i : Nat) (pixels : List Byte), i ≤ len → len ≤ pixels.length →
      (len - i) / 16 < fuel →
      ∃ out, neon_loop f len fuel i pixels =
          .ok (i + (len - i) / 16 * 16, out) ∧
        out.length = pixels.length ∧
        ∀ j, i + (len - i) / 16 * 16 ≤ j → out[j]? = pixels[j]? := by
  intro fuel
  induction fuel with
  | zero => intro i pixels _ _ h; exact absurd h (Nat.not_lt_zero _)
  | succ fuel ih =>
    intro i pixels hi hl hf
    have hmod : (i + 16) % SIZE_MOD = i + 16 := Nat.mod_eq_of_lt (by omega)
    unfold neon_loop
    rw [hmod]
    by_cases hstep : i + 16 ≤ len
    · have hdiv : (len - i) / 16 = (len - (i + 16)) / 16 + 1 := by omega
      rw [if_pos hstep, load_ok _ _ _ (by omega), bind_ok]
      have l1 := length_slice pixels i 16 (by omega)
      simp only []
      generalize hfin : vqmovn_u16 _ = final
      have lf : final.length = 8 := by
        rw [← hfin]
        exact length_neon_lanes _ f l1
      rw [store_ok _ _ _ (by omega), bind_ok]
      obtain ⟨out, e, l, r⟩ := ih (i + 16) (blit pixels i final) hstep
        (by rw [length_blit _ _ _ (by omega)]; exact hl) (by omega)
      refine ⟨out, ?_, by rw [l, length_blit _ _ _ (by omega)], ?_⟩
      · rewrite [e, hdiv]
        congr 2
        omega
      · intro j hj
        rewrite [r j (by omega), getElem?_blit _ _ _ (by omega),
          if_neg (by omega)]
        rfl
    · have hz : (len - i) / 16 = 0 := Nat.div_eq_of_lt (by omega)
      rw [if_neg hstep, hz]
      exact ⟨pixels, by simp, rfl, fun j _ => rfl⟩

/-! ## The transform formula (C7) -/

theorem process_pixels_avx2_spec (pixels : List Byte) (len : Nat) (f : F32)
    (fuel : Nat) (hlen : len ≤ pixels.length) (hw : len + 32 < SIZE_MOD)
    (hf : len / 32 < fuel) :
    ∃ out, process_pixels_avx2 pixels len f fuel = .ok out ∧
      out.length = pixels.length ∧
      ∀ j, len / 32 * 32 ≤ j →
        out[j]? = if j < len then (pixels[j]?).map (fun v => trunc_clamp v f)
          else pixels[j]? := by
  have hq : len / 32 * 32 ≤ len := Nat.div_mul_le_self _ _
  obtain ⟨mid, e, l, r⟩ := avx2_loop_spec f len hw fuel 0 pixels
    (Nat.zero_le _) hlen (by simpa using hf)
  simp only [Nat.sub_zero, Nat.zero_add] at e r
  obtain ⟨out, e2, l2, r2⟩ := scalar_loop_spec f (len - len / 32 * 32)
    (len / 32 * 32) mid (by omega)
  refine ⟨out, ?_, by rw [l2, l], ?_⟩
  · unfold process_pixels_avx2
    rw [e, bind_ok]
    exact e2
  · intro j hj
    rw [r2 j, r j hj]
    by_cases h : j < len
    · rw [if_pos (by omega), if_pos h]
    · rw [if_neg (by omega), if_neg h]

theorem process_pixels_neon_spec (pixels : List Byte) (len : Nat) (f : F32)
    (fuel : Nat) (hlen : len ≤ pixels.length) (hw : len + 16 < SIZE_MOD)
    (hf : len / 16 < fuel) :
    ∃ out, process_pixels_neon pixels len f fuel = .ok out ∧
      out.length = pixels.length ∧
      ∀ j, len / 16 * 16 ≤ j →
        out[j]? = if j < len then (pixels[j]?).map (fun v => trunc_clamp v f)
          else pixels[j]? := by
  have hq : len / 16 * 16 ≤ len := Nat.div_mul_le_self _ _
  obtain ⟨mid, e, l, r⟩ := neon_loop_spec f len hw fuel 0 pixels
    (Nat.zero_le _) hlen (by simpa using hf)
  simp only [Nat.sub_zero, Nat.zero_add] at e r
  obtain ⟨out, e2, l2, r2⟩ := scalar_loop_spec f (len - len / 16 * 16)
    (len / 16 * 16) mid (by omega)
  refine ⟨out, ?_, by rw [l2, l], ?_⟩
  · unfold process_pixels_neon
    rw [e, bind_ok]
    exact e2
  · intro j hj
    rw [r2 j, r j hj]
    by_cases h : j < len
    · rw [if_pos (by omega), if_pos h]
    · rw [if_neg (by omega), if_neg h]

/-- C7, counterexample. For the byte 1 and the factor 0.5 the product is 0.5;
rounding halves up gives 1, but both functions store 0. -/
theorem transform_formula_counterexample :
    spec_transform 1 F32.half = some 1 ∧
    process_pixels_avx2 [1] 1 F32.half 1 = .ok [0] ∧
    process_pixels_neon [1] 1 F32.half 1 = .ok [0] := by
  decide

/-- C7, amended (transform formula of the remainder loop). For every buffer,
every length inside it and every factor `f` (NaN and the infinities
included), both functions return, and every byte `v` that their scalar
remainder loop handles, the bytes after the last whole chunk, is replaced by
the `float` product `v * f` clamped to `[0, 255]` and truncated toward zero
(NaN counting as 0); the result saturates at 0 and at 255. -/
theorem transform_remainder_truncates (pixels : List Byte) (len : Nat) (f : F32)
    (fuel : Nat) (hlen : len ≤ pixels.length) (hsize : len + 32 < SIZE_MOD)
    (hfuel : len / 16 < fuel) :
    (∃ out, process_pixels_avx2 pixels len f fuel = .ok out ∧
      ∀ j, len / 32 * 32 ≤ j → j < len →
        out[j]? = (pixels[j]?).map (fun v => trunc_clamp v f)) ∧
    (∃ out, process_pixels_neon pixels len f fuel = .ok out ∧
      ∀ j, len / 16 * 16 ≤ j → j < len →
        out[j]? = (pixels[j]?).map (fun v => trunc_clamp v f)) := by
  have h32 : len / 32 < fuel :=
    Nat.lt_of_le_of_lt (Nat.div_le_div_left (by decide) (by decide)) hfuel
  obtain ⟨o1, e1, _, r1⟩ :=
    process_pixels_avx2_spec pixels len f fuel hlen hsize h32
  obtain ⟨o2, e2, _, r2⟩ :=
    process_pixels_neon_spec pixels len f fuel hlen (by omega) hfuel
  refine ⟨⟨o1, e1, fun j h1 h2 => ?_⟩, ⟨o2, e2, fun j h1 h2 => ?_⟩⟩
  · rw [r1 j h1, if_pos h2]
  · rw [r2 j h1, if_pos h2]

/-- C7, the scenario of the specification: an 8-byte buffer of value 10 with
factor 2.0 becomes all 20, on both functions. -/
theorem transform_remainder_truncates_witness :
    (8 ≤ (List.replicate 8 (10 : Byte)).length ∧ 8 + 32 < SIZE_MOD ∧
      8 / 16 < 1) ∧
    ((∃ out, process_pixels_avx2 (List.replicate 8 10) 8 F32.two 1 = .ok out ∧
      ∀ j, 8 / 32 * 32 ≤ j → j < 8 →
        out[j]? = ((List.replicate 8 (10 : Byte))[j]?).map
          (fun v => trunc_clamp v F32.two)) ∧
    (∃ out, process_pixels_neon (List.replicate 8 10) 8 F32.two 1 = .ok out ∧
      ∀ j, 8 / 16 * 16 ≤ j → j < 8 →
        out[j]? = ((List.replicate 8 (10 : Byte))[j]?).map
          (fun v => trunc_clamp v F32.two))) ∧
    process_pixels_avx2 (List.replicate 8 10) 8 F32.two 1 =
      .ok (List.replicate 8 20) ∧
    process_pixels_neon (List.replicate 8 10) 8 F32.two 1 =
      .ok (List.replicate 8 20) ∧
    trunc_clamp 10 F32.two = 20 :=
  ⟨by decide,
    transform_remainder_truncates (List.replicate 8 10) 8 F32.two 1 (by decide)
      (by decide) (by decide),
    by decide, by decide, by decide⟩

/-! ## Vector loop against scalar loop (C8) -/

/-- C8, the code at the failing input. With factor 1.0 the remainder loop
applied to the 32 bytes `0..31` returns them unchanged, while the AVX2 chunk
loop reads only bytes 0..7 and 16..23 of the chunk and stores them
interleaved and doubled; the NEON chunk loop on the 16 bytes `0..15` stores
bytes 0..3 and 8..11 into the first 8 positions and leaves the last 8 bytes
untouched. With factor 0.5 the AVX2 lanes round 1.5 to 2 where the remainder
loop truncates to 1. -/
theorem vector_loop_differs_from_scalar :
    scalar_loop F32.one 32 0 (ramp 32) = .ok (ramp 32) ∧
    process_pixels_avx2 (ramp 32) 32 F32.one 2 =
      .ok [0, 1, 2, 3, 16, 17, 18, 19, 0, 1, 2, 3, 16, 17, 18, 19,
        4, 5, 6, 7, 20, 21, 22, 23, 4, 5, 6, 7, 20, 21, 22, 23] ∧
    scalar_loop F32.one 16 0 (ramp 16) = .ok (ramp 16) ∧
    process_pixels_neon (ramp 16) 16 F32.one 2 =
      .ok [0, 1, 2, 3, 8, 9, 10, 11, 8, 9, 10, 11, 12, 13, 14, 15] ∧
    scalar_loop F32.half 32 0 (List.replicate 32 3) =
      .ok (List.replicate 32 1) ∧
    process_pixels_avx2 (List.replicate 32 3) 32 F32.half 2 =
      .ok (List.replicate 32 2) := by
  decide

/-! ## Identity and zero (C9) -/

/-- C9, the code at the failing inputs. With factor 1.0 a 33-byte buffer of
pairwise different bytes does not come back unchanged from
`process_pixels_avx2`, nor a 17-byte one from `process_pixels_neon`; with
factor 0.0 `process_pixels_neon` leaves bytes 8..15 of a 16-byte buffer of
value 7 at 7. -/
theorem identity_and_zero_fail :
    process_pixels_avx2 (ramp 33) 33 F32.one 2 =
      .ok [0, 1, 2, 3, 16, 17, 18, 19, 0, 1, 2, 3, 16, 17, 18, 19,
        4, 5, 6, 7, 20, 21, 22, 23, 4, 5, 6, 7, 20, 21, 22, 23, 32] ∧
    process_pixels_neon (ramp 17) 17 F32.one 2 =
      .ok [0, 1, 2, 3, 8, 9, 10, 11, 8, 9, 10, 11, 12, 13, 14, 15, 16] ∧
    process_pixels_neon (List.replicate 16 7) 16 F32.zero 2 =
      .ok [0, 0, 0, 0, 0, 0, 0, 0, 7, 7, 7, 7, 7, 7, 7, 7] := by
  decide

/-! ## The codec phase of `process_image` (C10) -/

/-- What `process_image` does once the compositing pass has returned `p1`. -/
theorem process_image_after_composite (t : BuildTarget) (g : Geometry)
    (fuel W : Nat) (env : Environment) (p p1 : ImageProcessor)
    (file : Option (List Byte)) (h : composite t g fuel W p = .ok p1) :
    process_image t g fuel W env p file =
      if env.tjInitCompress = false then
        .ok (Outcome.thrown (Exception.runtime_error
          "Failed to initialize TurboJPEG compressor"), p1, file)
      else if env.tjCompress2 ≠ 0 then
        .ok (Outcome.thrown (Exception.runtime_error "JPEG compression failed"),
          p1, file)
      else
        .ok (Outcome.returned
          { copy_time := env.now 2 - env.now 1,
            encode_time := env.now 4 - env.now 3,
            total_time := env.now 5 - env.now 0 }, p1,
          write_output env.ofstream env.jpeg_buffer file) := by
  unfold process_image
  simp only [h, bind_ok]
  split
  · rfl
  · split
    · rfl
    · rfl

/-- C10 (codec failure raises). For every geometry whose placed source fits
the canvas width and every worker count `W >= 1`, the compositing pass
returns, and then `process_image` returns timings if and only if
`tjInitCompress` gives a handle and `tjCompress2` returns 0; when the
initialisation fails it throws `runtime_error("Failed to initialize TurboJPEG
compressor")`, when the compression fails it throws
`runtime_error("JPEG compression failed")`, and the two exceptions are
different. -/
theorem process_image_codec_outcome (t : BuildTarget) (g : Geometry)
    (fuel W : Nat) (env : Environment) (p : ImageProcessor)
    (file : Option (List Byte)) (hfit : g.Fits) (hs : Shaped g p) (hW : 1 ≤ W)
    (hf : row_bytes g / 16 < fuel) :
    ∃ p1, composite t g fuel W p = .ok p1 ∧
      ((∃ r q f, process_image t g fuel W env p file =
          .ok (Outcome.returned r, q, f)) ↔
        (env.tjInitCompress = true ∧ env.tjCompress2 = 0)) ∧
      (env.tjInitCompress = false →
        process_image t g fuel W env p file =
          .ok (Outcome.thrown (Exception.runtime_error
            "Failed to initialize TurboJPEG compressor"), p1, file)) ∧
      (env.tjInitCompress = true → env.tjCompress2 ≠ 0 →
        process_image t g fuel W env p file =
          .ok (Outcome.thrown
            (Exception.runtime_error "JPEG compression failed"), p1, file)) ∧
      Exception.runtime_error "Failed to initialize TurboJPEG compressor" ≠
        Exception.runtime_error "JPEG compression failed" := by
  obtain ⟨p1, e, _⟩ :=
    composite_spec t g fuel W p hf hW (Fits.inBounds g p hfit hs)
  have hp := process_image_after_composite t g fuel W env p p1 file e
  refine ⟨p1, e, ?_, ?_, ?_, by decide⟩
  · constructor
    · rintro ⟨r, q, f, hr⟩
      rw [hp] at hr
      by_cases h1 : env.tjInitCompress = false
      · rw [if_pos h1] at hr
        cases hr
      · by_cases h2 : env.tjCompress2 ≠ 0
        · rw [if_neg h1, if_pos h2] at hr
          cases hr
        · exact ⟨by simpa using h1, by simpa using h2⟩
    · rintro ⟨h1, h2⟩
      rw [hp, if_neg (by simp [h1]), if_neg (by simp [h2])]
      exact ⟨_, _, _, rfl⟩
  · intro h1
    rw [hp, if_pos h1]
  · intro h1 h2
    rw [hp, if_neg (by simp [h1]), if_pos h2]

/-- C10, on the scenario with a codec whose compression returns -1. -/
theorem process_image_codec_outcome_witness :
    (scenario.Fits ∧ Shaped scenario (scenario_processor SimdSupport.AVX2) ∧
      1 ≤ 4 ∧ row_bytes scenario / 16 < 1) ∧
    ∃ p1, composite x86_avx2 scenario 1 4
        (scenario_processor SimdSupport.AVX2) = .ok p1 ∧
      ((∃ r q f, process_image x86_avx2 scenario 1 4
          (sample_environment true (-1) true)
          (scenario_processor SimdSupport.AVX2) none =
          .ok (Outcome.returned r, q, f)) ↔
        ((sample_environment true (-1) true).tjInitCompress = true ∧
          (sample_environment true (-1) true).tjCompress2 = 0)) ∧
      ((sample_environment true (-1) true).tjInitCompress = false →
        process_image x86_avx2 scenario 1 4 (sample_environment true (-1) true)
          (scenario_processor SimdSupport.AVX2) none =
          .ok (Outcome.thrown (Exception.runtime_error
            "Failed to initialize TurboJPEG compressor"), p1, none)) ∧
      ((sample_environment true (-1) true).tjInitCompress = true →
        (sample_environment true (-1) true).tjCompress2 ≠ 0 →
        process_image x86_avx2 scenario 1 4 (sample_environment true (-1) true)
          (scenario_processor SimdSupport.AVX2) none =
          .ok (Outcome.thrown
            (Exception.runtime_error "JPEG compression failed"), p1, none)) ∧
      Exception.runtime_error "Failed to initialize TurboJPEG compressor" ≠
        Exception.runtime_error "JPEG compression failed" :=
  ⟨by decide,
    process_image_codec_outcome x86_avx2 scenario 1 4
      (sample_environment true (-1) true) (scenario_processor SimdSupport.AVX2)
      none (by decide) (by decide) (by decide) (by decide)⟩

/-! ## Capability detection (C13) -/

/-- C13 (capability detection). `get_simd_support` is a function of the four
build flags alone: every target has exactly one tag. The tag is `None`
exactly when no vector extension is compiled in (x86-64 with neither AVX2 nor
SSE4.1, or a target that is neither x86-64 nor AArch64); otherwise it is
`AVX2` (x86-64 with AVX2), `SSE4` (x86-64 with SSE4.1 but no AVX2) or `NEON`
(AArch64, not x86-64). -/
theorem get_simd_support_detects (t : BuildTarget) :
    (∃! tag, get_simd_support t = tag) ∧
    (get_simd_support t = SimdSupport.None ↔
      (t.x86_64 = true ∧ t.avx2 = false ∧ t.sse4_1 = false) ∨
      (t.x86_64 = false ∧ t.aarch64 = false)) ∧
    (get_simd_support t = SimdSupport.AVX2 ↔
      (t.x86_64 = true ∧ t.avx2 = true)) ∧
    (get_simd_support t = SimdSupport.SSE4 ↔
      (t.x86_64 = true ∧ t.avx2 = false ∧ t.sse4_1 = true)) ∧
    (get_simd_support t = SimdSupport.NEON ↔
      (t.x86_64 = false ∧ t.aarch64 = true)) := by
  refine ⟨⟨get_simd_support t, rfl, fun tag h => h.symm⟩, ?_⟩
  obtain ⟨a, b, c, d⟩ := t
  cases a <;> cases b <;> cases c <;> cases d <;> decide

/-! ## Short copies (C14) -/

theorem chunk_width_cases (t : BuildTarget) (tag : SimdSupport) (c : Nat)
    (h : chunk_width t tag = some c) : c = 16 ∨ c = 32 := by
  cases tag <;> simp only [chunk_width] at h
  · cases h
  · split at h
    · right; exact (Option.some.inj h).symm
    · cases h
  · cases h
  · split at h
    · left; exact (Option.some.inj h).symm
    · cases h

/-- The `switch` of `copy_row_simd`, by the case it takes. -/
theorem copy_row_simd_cases (t : BuildTarget) (src : List Byte) (srcOff : Nat)
    (dst : List Byte) (dstOff width : Nat) (tag : SimdSupport) (fuel : Nat) :
    (∀ c, chunk_width t tag = some c →
      copy_row_simd t src srcOff dst dstOff width tag fuel =
        copy_chunked c src srcOff dst dstOff width fuel) ∧
    (chunk_width t tag = none →
      copy_row_simd t src srcOff dst dstOff width tag fuel =
        memcpy dst dstOff src srcOff width) := by
  cases tag <;> cases hx : t.x86_64 <;> cases ha : t.aarch64 <;>
    simp [chunk_width, copy_row_simd, hx, ha]

/-- C14, counterexample. On an x86-64 build `MIN_BYTES_FOR_SIMD` is 64, and
for the `AVX2` tag and the length 32, which is below it, the chunk loop of
`copy_row_simd` runs out of fuel when it may test its condition only once and
ends at `i = 32` when it may test it twice: it executes one vector step and
leaves no byte to `memcpy`. -/
theorem short_copy_counterexample :
    (MIN_BYTES_FOR_SIMD x86_avx2 = 64 ∧ 32 < MIN_BYTES_FOR_SIMD x86_avx2 ∧
      chunk_width x86_avx2 SimdSupport.AVX2 = some 32) ∧
    copy_loop 32 (ramp 32) 0 0 32 1 0 (List.replicate 32 0) =
      .error Fault.outOfFuel ∧
    copy_loop 32 (ramp 32) 0 0 32 2 0 (List.replicate 32 0) =
      .ok (32, ramp 32) ∧
    copy_row_simd x86_avx2 (ramp 32) 0 (List.replicate 32 0) 0 32
      SimdSupport.AVX2 2 = .ok (ramp 32) := by
  decide

/-- C14, amended (scalar routing below one chunk). For every build target,
every tag and every length smaller than the chunk width of the case the tag
takes (32 for AVX2, 16 for NEON), the chunk loop of `copy_row_simd` ends at
`i = 0` after testing its condition once, so it executes no vector step, and
the call is the one `memcpy` of all `L` bytes; a tag that reaches `default`
is that `memcpy` at every length. The constant `MIN_BYTES_FOR_SIMD` plays no
part. -/
theorem short_copy_skips_vector_loop (t : BuildTarget) (tag : SimdSupport)
    (src dst : List Byte) (srcOff dstOff L fuel : Nat) (hfuel : 1 ≤ fuel) :
    (∀ c, chunk_width t tag = some c → L < c →
      copy_loop c src srcOff dstOff L fuel 0 dst = .ok (0, dst) ∧
      copy_row_simd t src srcOff dst dstOff L tag fuel =
        memcpy dst dstOff src srcOff L) ∧
    (chunk_width t tag = none →
      copy_row_simd t src srcOff dst dstOff L tag fuel =
        memcpy dst dstOff src srcOff L) := by
  obtain ⟨hv, hd⟩ := copy_row_simd_cases t src srcOff dst dstOff L tag fuel
  refine ⟨?_, hd⟩
  intro c hc hL
  have hloop : copy_loop c src srcOff dstOff L fuel 0 dst = .ok (0, dst) := by
    obtain ⟨n, rfl⟩ : ∃ n, fuel = n + 1 := ⟨fuel - 1, by omega⟩
    have hmod : (0 + c) % SIZE_MOD = c := by
      rcases chunk_width_cases t tag c hc with h | h <;> subst h <;> rfl
    unfold copy_loop
    rw [hmod, if_neg (by omega)]
  refine ⟨hloop, ?_⟩
  rw [hv c hc]
  unfold copy_chunked
  rw [hloop, bind_ok]
  simp only [Nat.add_zero, Nat.sub_zero]

/-- C14, at 15 bytes with the `NEON` tag on an AArch64 build. -/
theorem short_copy_skips_vector_loop_witness :
    1 ≤ 1 ∧
    ((∀ c, chunk_width arm64 SimdSupport.NEON = some c → 15 < c →
      copy_loop c (ramp 15) 0 0 15 1 0 (List.replicate 15 0) =
        .ok (0, List.replicate 15 0) ∧
      copy_row_simd arm64 (ramp 15) 0 (List.replicate 15 0) 0 15
        SimdSupport.NEON 1 = memcpy (List.replicate 15 0) 0 (ramp 15) 0 15) ∧
    (chunk_width arm64 SimdSupport.NEON = none →
      copy_row_simd arm64 (ramp 15) 0 (List.replicate 15 0) 0 15
        SimdSupport.NEON 1 = memcpy (List.replicate 15 0) 0 (ramp 15) 0 15)) :=
  ⟨by decide,
    short_copy_skips_vector_loop arm64 SimdSupport.NEON (ramp 15)
      (List.replicate 15 0) 0 0 15 1 (by decide)⟩

/-! ## Steps of the chunk loop (C15) -/

/-- The chunk loop cannot end while whole chunks are left: with no more fuel
than `(width - i) / chunk` it runs out of fuel. -/
theorem copy_loop_out_of_fuel (chunk : Nat) (src : List Byte)
    (srcOff dstOff width : Nat) (hc : 0 < chunk)
    (hw : width + chunk < SIZE_MOD) (hs : srcOff + width ≤ src.length) :
    ∀ (fuel i : Nat) (dst : List Byte), i ≤ width →
      fuel ≤ (width - i) / chunk → dstOff + width ≤ dst.length →
      copy_loop chunk src srcOff dstOff width fuel i dst =
        .error Fault.outOfFuel := by
  intro fuel
  induction fuel with
  | zero => intro i dst _ _ _; rfl
  | succ fuel ih =>
    intro i dst hi hf hd
    have hstep : i + chunk ≤ width := by
      by_contra hn
      have hz : (width - i) / chunk = 0 := Nat.div_eq_of_lt (by omega)
      omega
    have hmod : (i + chunk) % SIZE_MOD = i + chunk :=
      Nat.mod_eq_of_lt (by omega)
    have hdiv : (width - i) / chunk = (width - (i + chunk)) / chunk + 1 := by
      have : width - i = (width - (i + chunk)) + chunk := by omega
      rw [this, Nat.add_div_right _ hc]
    have l1 := length_slice src (srcOff + i) chunk (by omega)
    unfold copy_loop
    rw [hmod, if_pos hstep, load_ok _ _ _ (by omega), bind_ok,
      store_ok _ _ _ (by omega), bind_ok]
    exact ih (i + chunk) _ hstep (by omega)
      (by rw [length_blit _ _ _ (by omega)]; exact hd)

/-- C15 (copy stays within length). For every build target, every tag and
every length `L` with `L + 32 < 2^64`, on buffers that may end right after
their `L` bytes: in a vectorised case of chunk width `c` the chunk loop needs
exactly `L / c + 1` tests of its condition (with `L / c` it runs out of
fuel), so it performs exactly `L / c` steps; step `k` touches the indices
`[k*c, k*c + c)`, all below `L`; the loop ends at `i = (L / c) * c` and the
`memcpy` that follows copies exactly `L mod c` bytes. A tag that reaches
`default` is one `memcpy` of `L` bytes. In every case the call returns, the
destination bytes `[0, L)` are the source bytes, and every destination byte
outside `[0, L)` is unchanged. -/
theorem copy_stays_within_length (t : BuildTarget) (tag : SimdSupport)
    (src dst : List Byte) (srcOff dstOff L : Nat)
    (hsrc : srcOff + L ≤ src.length) (hdst : dstOff + L ≤ dst.length)
    (hsize : L + 32 < SIZE_MOD) :
    (∀ c, chunk_width t tag = some c →
      (∀ k, k < L / c → k * c + c ≤ L) ∧
      copy_loop c src srcOff dstOff L (L / c) 0 dst = .error Fault.outOfFuel ∧
      copy_loop c src srcOff dstOff L (L / c + 1) 0 dst =
        .ok (L / c * c,
          blit dst dstOff ((src.drop srcOff).take (L / c * c))) ∧
      copy_row_simd t src srcOff dst dstOff L tag (L / c + 1) =
        memcpy (blit dst dstOff ((src.drop srcOff).take (L / c * c)))
          (dstOff + L / c * c) src (srcOff + L / c * c) (L % c)) ∧
    (chunk_width t tag = none → ∀ fuel,
      copy_row_simd t src srcOff dst dstOff L tag fuel =
        memcpy dst dstOff src srcOff L) ∧
    (∀ fuel, L / 16 < fuel →
      ∃ out, copy_row_simd t src srcOff dst dstOff L tag fuel = .ok out ∧
        out.length = dst.length ∧
        (∀ j, j < L → out[dstOff + j]? = src[srcOff + j]?) ∧
        (∀ j, ¬ (dstOff ≤ j ∧ j < dstOff + L) → out[j]? = dst[j]?)) := by
  have l1 := length_slice src srcOff L hsrc
  refine ⟨?_, ?_, ?_⟩
  · intro c hc
    have hcpos : 0 < c ∧ c ≤ 32 := by
      rcases chunk_width_cases t tag c hc with h | h <;> omega
    have hq : L / c * c ≤ L := Nat.div_mul_le_self _ _
    have hloop := copy_loop_ok c src srcOff dstOff L hcpos.1 (by omega) hsrc
      (L / c + 1) 0 dst (Nat.zero_le _) (by simp) hdst
    simp only [Nat.sub_zero, Nat.zero_add, Nat.add_zero] at hloop
    refine ⟨?_, ?_, hloop, ?_⟩
    · intro k hk
      have h1 : (k + 1) * c ≤ L / c * c := Nat.mul_le_mul_right _ hk
      rw [Nat.succ_mul] at h1
      omega
    · exact copy_loop_out_of_fuel c src srcOff dstOff L hcpos.1 (by omega) hsrc
        (L / c) 0 dst (Nat.zero_le _) (by simp) hdst
    · rw [(copy_row_simd_cases t src srcOff dst dstOff L tag (L / c + 1)).1 c hc]
      unfold copy_chunked
      rw [hloop, bind_ok]
      have hm : L - L / c * c = L % c := by
        have := Nat.div_add_mod L c
        rw [Nat.mul_comm] at this
        omega
      simp only [hm]
  · intro hn fuel
    exact (copy_row_simd_cases t src srcOff dst dstOff L tag fuel).2 hn
  · intro fuel hf
    refine ⟨_, copy_row_simd_ok t src srcOff dst dstOff L tag fuel hsize hsrc
      hdst hf, length_blit _ _ _ (by omega), ?_, ?_⟩
    · intro j hj
      rw [getElem?_blit _ _ _ (by omega), l1, if_pos (by omega),
        getElem?_slice, if_pos (by omega)]
      congr 1
      omega
    · intro j hn
      rw [getElem?_blit _ _ _ (by omega), l1, if_neg hn]

/-- C15, at 33 bytes with the `AVX2` tag on an x86-64 build, on buffers of
exactly 33 bytes. -/
theorem copy_stays_within_length_witness :
    (0 + 33 ≤ (ramp 33).length ∧ 0 + 33 ≤ (List.replicate 33 (0 : Byte)).length ∧
      33 + 32 < SIZE_MOD) ∧
    ((∀ c, chunk_width x86_avx2 SimdSupport.AVX2 = some c →
      (∀ k, k < 33 / c → k * c + c ≤ 33) ∧
      copy_loop c (ramp 33) 0 0 33 (33 / c) 0 (List.replicate 33 0) =
        .error Fault.outOfFuel ∧
      copy_loop c (ramp 33) 0 0 33 (33 / c + 1) 0 (List.replicate 33 0) =
        .ok (33 / c * c,
          blit (List.replicate 33 0) 0 (((ramp 33).drop 0).take (33 / c * c))) ∧
      copy_row_simd x86_avx2 (ramp 33) 0 (List.replicate 33 0) 0 33
          SimdSupport.AVX2 (33 / c + 1) =
        memcpy (blit (List.replicate 33 0) 0
            (((ramp 33).drop 0).take (33 / c * c)))
          (0 + 33 / c * c) (ramp 33) (0 + 33 / c * c) (33 % c)) ∧
    (chunk_width x86_avx2 SimdSupport.AVX2 = none → ∀ fuel,
      copy_row_simd x86_avx2 (ramp 33) 0 (List.replicate 33 0) 0 33
          SimdSupport.AVX2 fuel =
        memcpy (List.replicate 33 0) 0 (ramp 33) 0 33) ∧
    (∀ fuel, 33 / 16 < fuel →
      ∃ out, copy_row_simd x86_avx2 (ramp 33) 0 (List.replicate 33 0) 0 33
          SimdSupport.AVX2 fuel = .ok out ∧
        out.length = (List.replicate 33 (0 : Byte)).length ∧
        (∀ j, j < 33 → out[0 + j]? = (ramp 33)[0 + j]?) ∧
        (∀ j, ¬ (0 ≤ j ∧ j < 0 + 33) →
          out[j]? = (List.replicate 33 (0 : Byte))[j]?))) :=
  ⟨by decide,
    copy_stays_within_length x86_avx2 SimdSupport.AVX2 (ramp 33)
      (List.replicate 33 0) 0 0 33 (by decide) (by decide) (by decide)⟩

/-! ## Worker order, repeated passes (C17, C18) -/

theorem processor_ext (p q : ImageProcessor)
    (h1 : p.original_img = q.original_img)
    (h2 : p.simd_support = q.simd_support)
    (h3 : ∀ j : Nat, p.new_img[j]? = q.new_img[j]?) : p = q := by
  cases p
  cases q
  simp only [ImageProcessor.mk.injEq]
  exact ⟨h1, List.ext_getElem? h3, h2⟩

theorem InBounds.shaped (g : Geometry) (p q : ImageProcessor) (hs : Shaped g p)
    (hp : InBounds g p) (hq : InBounds g q)
    (h1 : q.original_img = p.original_img) : Shaped g q :=
  ⟨by rw [h1]; exact hs.1, by rw [hq.dst_len, ← hp.dst_len]; exact hs.2⟩

/-- A second pass changes nothing. -/
theorem composite_twice (t : BuildTarget) (g : Geometry) (fuel W : Nat)
    (p : ImageProcessor) (hf : row_bytes g / 16 < fuel) (hW : 1 ≤ W)
    (hb : InBounds g p) :
    ∃ p2, composite t g fuel W p = .ok p2 ∧
      composite t g fuel W p2 = .ok p2 ∧
      p2.original_img = p.original_img ∧
      p2.simd_support = p.simd_support ∧ InBounds g p2 ∧
      ∀ j, ((j / new_row_bytes g < g.NEW_HEIGHT ∧ in_segment g j) →
              p2.new_img[j]? = p.original_img[source_index g j]?) ∧
           (¬ (j / new_row_bytes g < g.NEW_HEIGHT ∧ in_segment g j) →
              p2.new_img[j]? = p.new_img[j]?) := by
  obtain ⟨p2, e2, s2, t2, b2, r2⟩ := composite_spec t g fuel W p hf hW hb
  obtain ⟨p3, e3, s3, t3, _, r3⟩ := composite_spec t g fuel W p2 hf hW b2
  have heq : p3 = p2 := by
    apply processor_ext _ _ s3 t3
    intro j
    by_cases hc : j / new_row_bytes g < g.NEW_HEIGHT ∧ in_segment g j
    · rw [(r3 j).1 hc, (r2 j).1 hc, s2]
    · rw [(r3 j).2 hc]
  exact ⟨p2, e2, by rw [e3, heq], s2, t2, b2, r2⟩

/-- Any number of passes after the first changes nothing. -/
theorem composite_passes_fixed (t : BuildTarget) (g : Geometry) (fuel W : Nat)
    (p2 : ImageProcessor) (h : composite t g fuel W p2 = .ok p2) :
    ∀ n, composite_passes t g fuel W n p2 = .ok p2 := by
  intro n
  induction n with
  | zero => rfl
  | succ n ih =>
    unfold composite_passes
    rw [h, bind_ok]
    exact ih

theorem composite_passes_succ (t : BuildTarget) (g : Geometry) (fuel W : Nat)
    (p p2 : ImageProcessor) (h1 : composite t g fuel W p = .ok p2)
    (h2 : composite t g fuel W p2 = .ok p2) (n : Nat) :
    composite_passes t g fuel W (n + 1) p = .ok p2 := by
  unfold composite_passes
  rw [h1, bind_ok]
  exact composite_passes_fixed t g fuel W p2 h2 n

/-- C18 (compositing is idempotent). For every geometry whose placed source
fits the canvas width, every initial canvas and every worker count, the pass
returns a processor on which a second pass returns the same processor, with
the source unchanged; hence `n + 1` passes in a row leave what the first pass
left, for every `n`. -/
theorem composite_idempotent (t : BuildTarget) (g : Geometry) (fuel W : Nat)
    (p : ImageProcessor) (hfit : g.Fits) (hs : Shaped g p) (hW : 1 ≤ W)
    (hf : row_bytes g / 16 < fuel) :
    ∃ p2, composite t g fuel W p = .ok p2 ∧
      composite t g fuel W p2 = .ok p2 ∧
      p2.original_img = p.original_img ∧
      ∀ n, composite_passes t g fuel W (n + 1) p = .ok p2 := by
  obtain ⟨p2, e1, e2, s, _⟩ :=
    composite_twice t g fuel W p hf hW (Fits.inBounds g p hfit hs)
  exact ⟨p2, e1, e2, s, composite_passes_succ t g fuel W p p2 e1 e2⟩

/-- C18, for the program itself: the configured geometry and 8 workers. -/
theorem composite_idempotent_witness :
    (configured.Fits ∧
      Shaped configured (ImageProcessor.create x86_avx2 configured) ∧ 1 ≤ 8 ∧
      row_bytes configured / 16 < 3563) ∧
    ∃ p2, composite x86_avx2 configured 3563 8
        (ImageProcessor.create x86_avx2 configured) = .ok p2 ∧
      composite x86_avx2 configured 3563 8 p2 = .ok p2 ∧
      p2.original_img =
        (ImageProcessor.create x86_avx2 configured).original_img ∧
      ∀ n, composite_passes x86_avx2 configured 3563 8 (n + 1)
        (ImageProcessor.create x86_avx2 configured) = .ok p2 :=
  have hs : Shaped configured (ImageProcessor.create x86_avx2 configured) :=
    ⟨(List.length_replicate _ _).trans (by decide),
      (List.length_replicate _ _).trans (by decide)⟩
  ⟨⟨by decide, hs, by decide, by decide⟩,
    composite_idempotent x86_avx2 configured 3563 8
      (ImageProcessor.create x86_avx2 configured) (by decide) hs (by decide)
      (by decide)⟩

/-! ## The configured geometry (C16, C19) -/

theorem configured_bytes :
    row_bytes configured = 57000 ∧ offset_bytes configured = 1500 ∧
    new_row_bytes configured = 60000 ∧
    original_size configured = 1083000000 ∧
    new_size configured = 1200000000 := by
  decide

theorem configured_shaped (t : BuildTarget) :
    Shaped configured (ImageProcessor.create t configured) :=
  ⟨(List.length_replicate _ _).trans (by decide),
    (List.length_replicate _ _).trans (by decide)⟩

/-- C16 (in-bounds for the configured geometry). With the constants of the
program the 32-bit products `19000*19000*3` and `20000*20000*3` do not wrap,
so both buffers of the constructed processor have `width*height*3` bytes;
`row_bytes`, `offset_bytes` and `new_row_bytes` are `57000`, `1500` and
`60000`; for every canvas row `y` that receives a copy, the source row read,
`[(y-500)*57000, (y-500)*57000 + 57000)`, ends inside the source buffer and
the segment written, `[y*60000 + 1500, y*60000 + 58500)`, ends inside canvas
row `y`, which ends inside the canvas buffer; and for every worker count
`W >= 1` the pass returns, so no access leaves a buffer. -/
theorem configured_in_bounds (t : BuildTarget) (fuel W : Nat) (hW : 1 ≤ W)
    (hf : row_bytes configured / 16 < fuel) :
    (19000 * 19000 < U32_MOD ∧ 19000 * 19000 * 3 < U32_MOD ∧
      20000 * 20000 < U32_MOD ∧ 20000 * 20000 * 3 < U32_MOD) ∧
    ((ImageProcessor.create t configured).original_img.length =
        19000 * 19000 * 3 ∧
      (ImageProcessor.create t configured).new_img.length =
        20000 * 20000 * 3) ∧
    (row_bytes configured = 19000 * 3 ∧ offset_bytes configured = 500 * 3 ∧
      new_row_bytes configured = 20000 * 3) ∧
    (∀ y, configured.OFFSET_Y ≤ y →
      y < configured.OFFSET_Y + configured.ORIGINAL_HEIGHT →
      y < configured.NEW_HEIGHT →
      (y - configured.OFFSET_Y) * row_bytes configured + row_bytes configured ≤
        (ImageProcessor.create t configured).original_img.length ∧
      y * new_row_bytes configured + offset_bytes configured +
          row_bytes configured ≤ (y + 1) * new_row_bytes configured ∧
      (y + 1) * new_row_bytes configured ≤
        (ImageProcessor.create t configured).new_img.length) ∧
    ∃ p2, composite t configured fuel W (ImageProcessor.create t configured) =
        .ok p2 ∧
      p2.original_img.length = 19000 * 19000 * 3 ∧
      p2.new_img.length = 20000 * 20000 * 3 := by
  obtain ⟨hrb, hob, hnb, hos, hns⟩ := configured_bytes
  have hs := configured_shaped t
  have hb := Fits.inBounds configured _ (by decide) hs
  have l1 : (ImageProcessor.create t configured).original_img.length =
      1083000000 := (List.length_replicate _ _).trans hos
  have l2 : (ImageProcessor.create t configured).new_img.length =
      1200000000 := (List.length_replicate _ _).trans hns
  refine ⟨by decide, ⟨l1, l2⟩, ⟨hrb, hob, hnb⟩, ?_, ?_⟩
  · intro y h1 h2 h3
    have e1 : configured.OFFSET_Y = 500 := rfl
    have e2 : configured.ORIGINAL_HEIGHT = 19000 := rfl
    have e3 : configured.NEW_HEIGHT = 20000 := rfl
    rw [e1, e2] at h2
    rw [e1] at h1
    rw [e3] at h3
    rw [hrb, hob, hnb, l1, l2, e1]
    omega
  · obtain ⟨p2, e, s, _, b2, _⟩ := composite_spec t configured fuel W _ hf hW hb
    refine ⟨p2, e, by rw [s]; exact l1, ?_⟩
    rw [b2.dst_len, ← hb.dst_len]
    exact l2

/-- C19 (final canvas content of the program). Starting from the constructed
processor, after any number `n >= 1` of compositing passes with any worker
count `W >= 1`, the canvas byte at row `y < 20000` and byte column
`c < 60000` is 128 if `500 <= y < 19500` and `1500 <= c < 58500`, and 0
otherwise; the source buffer still has its `19000*19000*3` bytes, all 128. -/
theorem final_canvas_content (t : BuildTarget) (fuel W n : Nat) (hW : 1 ≤ W)
    (hf : row_bytes configured / 16 < fuel) (hn : 1 ≤ n) :
    ∃ p2, composite_passes t configured fuel W n
        (ImageProcessor.create t configured) = .ok p2 ∧
      (∀ y c, y < 20000 → c < 60000 →
        byte_at p2.new_img 60000 y c =
          some (if 500 ≤ y ∧ y < 19500 ∧ 1500 ≤ c ∧ c < 58500 then 128
            else 0)) ∧
      p2.original_img.length = 19000 * 19000 * 3 ∧
      ∀ i, i < 19000 * 19000 * 3 → p2.original_img[i]? = some 128 := by
  obtain ⟨hrb, hob, hnb, hos, hns⟩ := configured_bytes
  have hs := configured_shaped t
  have hb := Fits.inBounds configured _ (by decide) hs
  have hsrc : ∀ i, i < 1083000000 →
      (ImageProcessor.create t configured).original_img[i]? = some 128 := by
    intro i hi
    show (List.replicate (original_size configured) (128 : Byte))[i]? = _
    rw [List.getElem?_replicate, if_pos (by rw [hos]; exact hi)]
  have hdst : ∀ j, j < 1200000000 →
      (ImageProcessor.create t configured).new_img[j]? = some 0 := by
    intro j hj
    show (List.replicate (new_size configured) (0 : Byte))[j]? = _
    rw [List.getElem?_replicate, if_pos (by rw [hns]; exact hj)]
  obtain ⟨p2, e1, e2, s, _, _, r⟩ :=
    composite_twice t configured fuel W _ hf hW hb
  obtain ⟨m, rfl⟩ : ∃ m, n = m + 1 := ⟨n - 1, by omega⟩
  refine ⟨p2, composite_passes_succ t configured fuel W _ p2 e1 e2 m, ?_,
    by rw [s]; exact (List.length_replicate _ _).trans hos, ?_⟩
  · intro y c hy hc
    have e0 : configured.OFFSET_Y = 500 := rfl
    have e3 : configured.ORIGINAL_HEIGHT = 19000 := rfl
    have e4 : configured.NEW_HEIGHT = 20000 := rfl
    have hrow : (y * 60000 + c) / 60000 = y := by omega
    have hcol : (y * 60000 + c) % 60000 = c := by omega
    unfold byte_at
    by_cases hin : 500 ≤ y ∧ y < 19500 ∧ 1500 ≤ c ∧ c < 58500
    · have hseg : in_segment configured (y * 60000 + c) := by
        unfold in_segment
        rw [hnb, hrow, hcol, hob, hrb, e0, e3]
        omega
      have hidx : source_index configured (y * 60000 + c) =
          (y - 500) * 57000 + (c - 1500) := by
        unfold source_index
        rw [hnb, hrow, hcol, hob, hrb, e0]
      rw [if_pos hin, (r _).1 ⟨by rw [hnb, hrow, e4]; exact hy, hseg⟩, hidx]
      exact hsrc _ (by omega)
    · have hseg : ¬ in_segment configured (y * 60000 + c) := by
        unfold in_segment
        rw [hnb, hrow, hcol, hob, hrb, e0, e3]
        omega
      rw [if_neg hin, (r _).2 (fun h => hseg h.2)]
      exact hdst _ (by omega)
  · intro i hi
    rw [s]
    exact hsrc i hi

/-- C16, on an x86-64 build with 8 workers. -/
theorem configured_in_bounds_witness :
    (1 ≤ 8 ∧ row_bytes configured / 16 < 3563) ∧
    ((19000 * 19000 < U32_MOD ∧ 19000 * 19000 * 3 < U32_MOD ∧
      20000 * 20000 < U32_MOD ∧ 20000 * 20000 * 3 < U32_MOD) ∧
    ((ImageProcessor.create x86_avx2 configured).original_img.length =
        19000 * 19000 * 3 ∧
      (ImageProcessor.create x86_avx2 configured).new_img.length =
        20000 * 20000 * 3) ∧
    (row_bytes configured = 19000 * 3 ∧ offset_bytes configured = 500 * 3 ∧
      new_row_bytes configured = 20000 * 3) ∧
    (∀ y, configured.OFFSET_Y ≤ y →
      y < configured.OFFSET_Y + configured.ORIGINAL_HEIGHT →
      y < configured.NEW_HEIGHT →
      (y - configured.OFFSET_Y) * row_bytes configured + row_bytes configured ≤
        (ImageProcessor.create x86_avx2 configured).original_img.length ∧
      y * new_row_bytes configured + offset_bytes configured +
          row_bytes configured ≤ (y + 1) * new_row_bytes configured ∧
      (y + 1) * new_row_bytes configured ≤
        (ImageProcessor.create x86_avx2 configured).new_img.length) ∧
    ∃ p2, composite x86_avx2 configured 3563 8
        (ImageProcessor.create x86_avx2 configured) = .ok p2 ∧
      p2.original_img.length = 19000 * 19000 * 3 ∧
      p2.new_img.length = 20000 * 20000 * 3) :=
  ⟨by decide, configured_in_bounds x86_avx2 3563 8 (by decide) (by decide)⟩

/-- C19, for the three iterations of the program on an x86-64 build with 8
workers. -/
theorem final_canvas_content_witness :
    (1 ≤ 8 ∧ row_bytes configured / 16 < 3563 ∧ 1 ≤ 3) ∧
    ∃ p2, composite_passes x86_avx2 configured 3563 8 3
        (ImageProcessor.create x86_avx2 configured) = .ok p2 ∧
      (∀ y c, y < 20000 → c < 60000 →
        byte_at p2.new_img 60000 y c =
          some (if 500 ≤ y ∧ y < 19500 ∧ 1500 ≤ c ∧ c < 58500 then 128
            else 0)) ∧
      p2.original_img.length = 19000 * 19000 * 3 ∧
      ∀ i, i < 19000 * 19000 * 3 → p2.original_img[i]? = some 128 :=
  ⟨by decide,
    final_canvas_content x86_avx2 3563 8 3 (by decide) (by decide) (by decide)⟩

/-! ## Stream failures (C12) -/

/-- C12, counterexample. On the scenario, with a working codec: when the
stream on `output.jpg` fails to open, `process_image` throws nothing and
returns the timings of a successful iteration, the file still being absent;
when the stream opens and the write fails after 2 bytes, it returns the same
timings and the file holds these 2 bytes. -/
theorem stream_failure_counterexample :
    ((sample_environment true 0 false).ofstream = StreamOutcome.openFails ∧
      codec_ok (sample_environment true 0 false)) ∧
    process_image x86_avx2 scenario 1 4 (sample_environment true 0 false)
        (scenario_processor SimdSupport.AVX2) none =
      .ok (Outcome.returned (BenchmarkResults.mk 10 10 50),
        ImageProcessor.mk (List.replicate 16 5)
          ((List.range 100).map fun j =>
            if 2 ≤ j / 10 ∧ j / 10 < 6 ∧ 2 ≤ j % 10 ∧ j % 10 < 6 then 5
            else 0)
          SimdSupport.AVX2,
        none) ∧
    process_image x86_avx2 scenario 1 4
        { sample_environment true 0 true with
          ofstream := StreamOutcome.writeFails 2 }
        (scenario_processor SimdSupport.AVX2) none =
      .ok (Outcome.returned (BenchmarkResults.mk 10 10 50),
        ImageProcessor.mk (List.replicate 16 5)
          ((List.range 100).map fun j =>
            if 2 ≤ j / 10 ∧ j / 10 < 6 ∧ 2 ≤ j % 10 ∧ j % 10 < 6 then 5
            else 0)
          SimdSupport.AVX2,
        some [255, 216]) := by
  decide

/-- What `process_image` does with a working codec. -/
theorem process_image_codec_ok (t : BuildTarget) (g : Geometry)
    (fuel W : Nat) (env : Environment) (p p1 : ImageProcessor)
    (file : Option (List Byte)) (h : composite t g fuel W p = .ok p1)
    (hc : codec_ok env) :
    process_image t g fuel W env p file =
      .ok (Outcome.returned (timings env), p1,
        write_output env.ofstream env.jpeg_buffer file) := by
  rw [process_image_after_composite t g fuel W env p p1 file h,
    if_neg (by simp [hc.1]), if_neg (by simp [hc.2])]
  rfl

/-- What `process_image` does with a failing codec. -/
theorem process_image_codec_fails (t : BuildTarget) (g : Geometry)
    (fuel W : Nat) (env : Environment) (p p1 : ImageProcessor)
    (file : Option (List Byte)) (h : composite t g fuel W p = .ok p1)
    (hc : ¬ codec_ok env) :
    ∃ e, process_image t g fuel W env p file =
      .ok (Outcome.thrown e, p1, file) := by
  rw [process_image_after_composite t g fuel W env p p1 file h]
  by_cases h1 : env.tjInitCompress = false
  · exact ⟨_, by rw [if_pos h1]⟩
  · by_cases h2 : env.tjCompress2 ≠ 0
    · exact ⟨_, by rw [if_neg h1, if_pos h2]⟩
    · exact absurd ⟨by simpa using h1, by simpa using h2⟩ hc

/-- C12, amended (a stream failure is not detected). For every geometry whose
placed source fits the canvas width, every worker count `W >= 1` and every
environment whose codec works: whatever happens to the stream on
`output.jpg` (the open fails, the write fails after any number of bytes, or
all works), `process_image` throws nothing and returns the same timings and
leaves the same processor; a stream failure is not an error of the
iteration. Only the two codec failures end an iteration with an
exception. -/
theorem stream_failure_ignored (t : BuildTarget) (g : Geometry) (fuel W : Nat)
    (env : Environment) (p : ImageProcessor) (file : Option (List Byte))
    (hfit : g.Fits) (hs : Shaped g p) (hW : 1 ≤ W)
    (hf : row_bytes g / 16 < fuel) (hc : codec_ok env) :
    ∃ p1, composite t g fuel W p = .ok p1 ∧
      ∀ s : StreamOutcome, ∃ f,
        process_image t g fuel W { env with ofstream := s } p file =
          .ok (Outcome.returned (timings env), p1, f) := by
  obtain ⟨p1, e, _⟩ :=
    composite_spec t g fuel W p hf hW (Fits.inBounds g p hfit hs)
  refine ⟨p1, e, fun s => ⟨write_output s env.jpeg_buffer file, ?_⟩⟩
  exact process_image_codec_ok t g fuel W { env with ofstream := s } p p1 file
    e (show codec_ok { env with ofstream := s } from hc)

/-! ## The iteration loop (C11) -/

theorem main_loop_congr (t : BuildTarget) (g : Geometry) (fuel W : Nat)
    (envs envs2 : Nat → Environment) :
    ∀ (n i : Nat) (s : MainState), (∀ m, m < n → envs2 (i + m) = envs (i + m)) →
      main_loop t g fuel W envs2 n i s = main_loop t g fuel W envs n i s := by
  intro n
  induction n with
  | zero => intro i s _; rfl
  | succ n ih =>
    intro i s h
    have h0 : envs2 i = envs i := h 0 (by omega)
    unfold main_loop
    rw [h0]
    congr 1
    funext x
    obtain ⟨out, p1, f1⟩ := x
    cases out with
    | thrown e => rfl
    | returned r =>
      exact ih (i + 1) _ (fun m hm => by
        have := h (m + 1) (by omega)
        rw [show i + (m + 1) = i + 1 + m by omega] at this
        exact this)

theorem main_loop_prefix (t : BuildTarget) (g : Geometry) (fuel W : Nat)
    (envs : Nat → Environment) (hfit : g.Fits) (hW : 1 ≤ W)
    (hf : row_bytes g / 16 < fuel) :
    ∀ (n i : Nat) (s : MainState) (k : Nat), Shaped g s.processor → k < n →
      (∀ m, m < k → codec_ok (envs (i + m))) → ¬ codec_ok (envs (i + k)) →
      ∃ st e, main_loop t g fuel W envs n i s = .ok (st, some e) ∧
        st.total_results = s.total_results ++
          (List.range k).map (fun m => timings (envs (i + m))) ∧
        main_loop t g fuel W envs (k + 1) i s = .ok (st, some e) := by
  intro n
  induction n with
  | zero => intro i s k _ hk; omega
  | succ n ih =>
    intro i s k hs hk hok hfail
    have hb := Fits.inBounds g s.processor hfit hs
    obtain ⟨p1, e1, s1, _, b1, _⟩ := composite_spec t g fuel W _ hf hW hb
    cases k with
    | zero =>
      obtain ⟨e, he⟩ := process_image_codec_fails t g fuel W (envs i)
        s.processor p1 s.output_jpg e1 hfail
      refine ⟨MainState.mk p1 s.output_jpg s.total_results, e, ?_, ?_, ?_⟩
      · unfold main_loop
        rw [he, bind_ok]
        rfl
      · simp
      · unfold main_loop
        rw [he, bind_ok]
        rfl
    | succ k =>
      have h0 : codec_ok (envs i) := hok 0 (by omega)
      have hp := process_image_codec_ok t g fuel W (envs i) s.processor p1
        s.output_jpg e1 h0
      obtain ⟨st, e, r1, r2, r3⟩ := ih (i + 1)
        { processor := p1,
          output_jpg :=
            write_output (envs i).ofstream (envs i).jpeg_buffer s.output_jpg,
          total_results := s.total_results ++ [timings (envs i)] } k
        (InBounds.shaped g s.processor p1 hs hb b1 s1) (by omega)
        (fun m hm => by
          have := hok (m + 1) (by omega)
          rw [show i + (m + 1) = i + 1 + m by omega] at this
          exact this)
        (by rw [show i + 1 + k = i + (k + 1) by omega]; exact hfail)
      refine ⟨st, e, ?_, ?_, ?_⟩
      · unfold main_loop
        rw [hp, bind_ok]
        exact r1
      · rw [r2, List.range_succ_eq_map, List.map_cons, List.map_map,
          List.append_assoc]
        simp only [List.singleton_append, Nat.add_zero]
        congr 2
        apply List.map_congr_left
        intro m _
        simp only [Function.comp, Nat.succ_eq_add_one]
        rw [show i + 1 + m = i + (m + 1) by omega]
      · unfold main_loop
        rw [hp, bind_ok]
        exact r3

theorem main_loop_all (t : BuildTarget) (g : Geometry) (fuel W : Nat)
    (envs : Nat → Environment) (hfit : g.Fits) (hW : 1 ≤ W)
    (hf : row_bytes g / 16 < fuel) :
    ∀ (n i : Nat) (s : MainState), Shaped g s.processor →
      (∀ m, m < n → codec_ok (envs (i + m))) →
      ∃ st, main_loop t g fuel W envs n i s = .ok (st, none) ∧
        st.total_results = s.total_results ++
          (List.range n).map (fun m => timings (envs (i + m))) := by
  intro n
  induction n with
  | zero => intro i s _ _; exact ⟨s, rfl, by simp⟩
  | succ n ih =>
    intro i s hs hok
    have hb := Fits.inBounds g s.processor hfit hs
    obtain ⟨p1, e1, s1, _, b1, _⟩ := composite_spec t g fuel W _ hf hW hb
    have h0 : codec_ok (envs i) := hok 0 (by omega)
    have hp := process_image_codec_ok t g fuel W (envs i) s.processor p1
      s.output_jpg e1 h0
    obtain ⟨st, r1, r2⟩ := ih (i + 1)
      { processor := p1,
        output_jpg :=
          write_output (envs i).ofstream (envs i).jpeg_buffer s.output_jpg,
        total_results := s.total_results ++ [timings (envs i)] }
      (InBounds.shaped g s.processor p1 hs hb b1 s1)
      (fun m hm => by
        have := hok (m + 1) (by omega)
        rw [show i + (m + 1) = i + 1 + m by omega] at this
        exact this)
    refine ⟨st, ?_, ?_⟩
    · unfold main_loop
      rw [hp, bind_ok]
      exact r1
    · rw [r2, List.range_succ_eq_map, List.map_cons, List.map_map,
        List.append_assoc]
      simp only [List.singleton_append, Nat.add_zero]
      congr 2
      apply List.map_congr_left
      intro m _
      simp only [Function.comp, Nat.succ_eq_add_one]
      rw [show i + 1 + m = i + (m + 1) by omega]


/-- C12, on the scenario with a working codec. -/
theorem stream_failure_ignored_witness :
    (scenario.Fits ∧ Shaped scenario (scenario_processor SimdSupport.AVX2) ∧
      1 ≤ 4 ∧ row_bytes scenario / 16 < 1 ∧
      codec_ok (sample_environment true 0 false)) ∧
    ∃ p1, composite x86_avx2 scenario 1 4
        (scenario_processor SimdSupport.AVX2) = .ok p1 ∧
      ∀ s : StreamOutcome, ∃ f,
        process_image x86_avx2 scenario 1 4
            { sample_environment true 0 false with ofstream := s }
            (scenario_processor SimdSupport.AVX2) none =
          .ok (Outcome.returned (timings (sample_environment true 0 false)),
            p1, f) :=
  ⟨by decide,
    stream_failure_ignored x86_avx2 scenario 1 4
      (sample_environment true 0 false) (scenario_processor SimdSupport.AVX2)
      none (by decide) (by decide) (by decide) (by decide) (by decide)⟩

/-- C11 (recorded timings are the successful prefix). For every geometry
whose placed source fits the canvas width and every worker count `W >= 1`:
if iteration `k` (counted from 0) of the 3 iterations is the first whose
codec fails, `main` reaches its handler with an exception, `total_results`
holds exactly the timings of the iterations `0 .. k-1` in iteration order,
and nothing depends on what the collaborators would answer in a later
iteration, so no later iteration runs; if no codec fails, `main` leaves the
loop without exception and `total_results` holds the timings of the 3
iterations in order. -/
theorem main_records_successful_prefix (t : BuildTarget) (g : Geometry)
    (fuel W : Nat) (envs : Nat → Environment) (file : Option (List Byte))
    (hfit : g.Fits) (hs : Shaped g (ImageProcessor.create t g)) (hW : 1 ≤ W)
    (hf : row_bytes g / 16 < fuel) :
    (∀ k, k < iterations → (∀ m, m < k → codec_ok (envs m)) →
      ¬ codec_ok (envs k) →
      ∃ st e, main t g fuel W envs file = .ok (st, some e) ∧
        st.total_results = (List.range k).map (fun m => timings (envs m)) ∧
        ∀ envs2 : Nat → Environment, (∀ m, m ≤ k → envs2 m = envs m) →
          main t g fuel W envs2 file = .ok (st, some e)) ∧
    ((∀ m, m < iterations → codec_ok (envs m)) →
      ∃ st, main t g fuel W envs file = .ok (st, none) ∧
        st.total_results =
          [timings (envs 0), timings (envs 1), timings (envs 2)]) := by
  constructor
  · intro k hk hok hfail
    obtain ⟨st, e, r1, r2, r3⟩ := main_loop_prefix t g fuel W envs hfit hW hf
      iterations 0 (MainState.mk (ImageProcessor.create t g) file []) k hs hk
      (fun m hm => by rw [Nat.zero_add]; exact hok m hm)
      (by rw [Nat.zero_add]; exact hfail)
    refine ⟨st, e, r1, ?_, ?_⟩
    · rw [r2]
      simp only [List.nil_append, Nat.zero_add]
    · intro envs2 hagree
      obtain ⟨st2, e2, q1, _, q3⟩ := main_loop_prefix t g fuel W envs2 hfit hW
        hf iterations 0 (MainState.mk (ImageProcessor.create t g) file []) k hs
        hk
        (fun m hm => by
          rw [Nat.zero_add, hagree m (by omega)]; exact hok m hm)
        (by rw [Nat.zero_add, hagree k (Nat.le_refl k)]; exact hfail)
      have hc := main_loop_congr t g fuel W envs envs2 (k + 1) 0
        (MainState.mk (ImageProcessor.create t g) file [])
        (fun m hm => by rw [Nat.zero_add]; exact hagree m (by omega))
      rw [q3, r3] at hc
      show main_loop t g fuel W envs2 iterations 0 _ = _
      rw [q1, hc]
  · intro hok
    obtain ⟨st, r1, r2⟩ := main_loop_all t g fuel W envs hfit hW hf iterations 0
      (MainState.mk (ImageProcessor.create t g) file []) hs
      (fun m hm => by rw [Nat.zero_add]; exact hok m hm)
    refine ⟨st, r1, ?_⟩
    rw [r2]
    rfl

/-- C11, on the scenario with a codec that fails in the second iteration:
one entry is recorded. -/
theorem main_records_successful_prefix_witness :
    (scenario.Fits ∧
      Shaped scenario (ImageProcessor.create x86_avx2 scenario) ∧ 1 ≤ 4 ∧
      row_bytes scenario / 16 < 1) ∧
    ((∀ k, k < iterations →
      (∀ m, m < k → codec_ok
        (sample_environment true (if m = 1 then -1 else 0) true)) →
      ¬ codec_ok (sample_environment true (if k = 1 then -1 else 0) true) →
      ∃ st e, main x86_avx2 scenario 1 4
          (fun i => sample_environment true (if i = 1 then -1 else 0) true)
          none = .ok (st, some e) ∧
        st.total_results = (List.range k).map (fun m => timings
          (sample_environment true (if m = 1 then -1 else 0) true)) ∧
        ∀ envs2 : Nat → Environment,
          (∀ m, m ≤ k → envs2 m =
            sample_environment true (if m = 1 then -1 else 0) true) →
          main x86_avx2 scenario 1 4 envs2 none = .ok (st, some e)) ∧
    ((∀ m, m < iterations → codec_ok
        (sample_environment true (if m = 1 then -1 else 0) true)) →
      ∃ st, main x86_avx2 scenario 1 4
          (fun i => sample_environment true (if i = 1 then -1 else 0) true)
          none = .ok (st, none) ∧
        st.total_results =
          [timings (sample_environment true (if 0 = 1 then -1 else 0) true),
            timings (sample_environment true (if 1 = 1 then -1 else 0) true),
            timings (sample_environment true (if 2 = 1 then -1 else 0) true)])) ∧
    (main x86_avx2 scenario 1 4
        (fun i => sample_environment true (if i = 1 then -1 else 0) true)
        none).map (fun r => (r.1.total_results, r.2)) =
      .ok ([BenchmarkResults.mk 10 10 50],
        some (Exception.runtime_error "JPEG compression failed")) :=
  ⟨by decide,
    main_records_successful_prefix x86_avx2 scenario 1 4
      (fun i => sample_environment true (if i = 1 then -1 else 0) true) none
      (by decide) (by decide) (by decide) (by decide),
    by decide⟩

end ImgHandel
